import Mathlib

/-!
Verification of the workers-builder repository: a shallow embedding of the
virtual dependency installer, module resolver and dependency-graph rewriter
(packages dynamic-worker-bundler and workers-builder), with theorems settling
the specification claims about them.

Conventions of the embedding:
* A JS object used as a string map (the virtual file set, registry metadata)
  is an ordered association list, matching JS insertion-order iteration.
* JS exceptions become `Except String`; `undefined` becomes `Option`.
* `JSON.parse` (a host builtin) is embedded as the executable `jsonParse`.
* String primitives are re-implemented structurally over `List Char` so that
  every definition evaluates by kernel reduction.
-/

/-! ## String utilities (structural, kernel-reducible) -/

def listPrefixOf : List Char → List Char → Bool
  | [], _ => true
  | _ :: _, [] => false
  | a :: as, b :: bs => a = b && listPrefixOf as bs

def strStartsWith (s pre : String) : Bool := listPrefixOf pre.data s.data

def strEndsWith (s post : String) : Bool :=
  listPrefixOf post.data.reverse s.data.reverse

def strDrop (s : String) (n : Nat) : String := String.mk (s.data.drop n)

def strTake (s : String) (n : Nat) : String := String.mk (s.data.take n)

def strDropRight (s : String) (n : Nat) : String :=
  String.mk (s.data.take (s.data.length - n))

def strLen (s : String) : Nat := s.data.length

/-- Split a character list at every occurrence of `c` (JS `String.split`). -/
def splitOnCharL (c : Char) : List Char → List (List Char)
  | [] => [[]]
  | x :: rest =>
    match splitOnCharL c rest with
    | [] => [[]]
    | g :: gs => if x = c then [] :: g :: gs else (x :: g) :: gs

def splitOnChar (c : Char) (s : String) : List String :=
  (splitOnCharL c s.data).map String.mk

/-- JS `Array.prototype.join(sep)`. -/
def strJoin (sep : String) : List String → String
  | [] => ""
  | [s] => s
  | s :: rest => s ++ sep ++ strJoin sep rest

def lookupStr {α : Type} (l : List (String × α)) (k : String) : Option α :=
  match l with
  | [] => none
  | (k0, v) :: rest => if k0 = k then some v else lookupStr rest k

/-- VirtualFileSet: path → text content, JS-object-like ordered map. -/
abbrev Files := List (String × String)

/-- JS `obj[k] = v`: overwrite in place if the key exists, else append. -/
def setKey (fs : Files) (k : String) (v : String) : Files :=
  match fs with
  | [] => [(k, v)]
  | (k0, v0) :: rest => if k0 = k then (k, v) :: rest else (k0, v0) :: setKey rest k v

/-- The apostrophe character as a string, for error-message construction. -/
def sqStr : String := String.mk [Char.ofNat 39]

/-- The double-quote character as a string. -/
def dqStr : String := String.mk [Char.ofNat 34]

/-! ## transformer.ts -/

/-- `isTypeScriptFile`: the regex test `\.(ts|tsx|mts)$`. -/
def isTypeScriptFile (p : String) : Bool :=
  strEndsWith p ".ts" || strEndsWith p ".tsx" || strEndsWith p ".mts"

/-- `isJsxFile`: the regex test `\.(jsx|tsx)$`. -/
def isJsxFile (p : String) : Bool :=
  strEndsWith p ".jsx" || strEndsWith p ".tsx"

/-- `isJavaScriptFile`: the regex test `\.(js|jsx|ts|tsx|mjs|mts)$`. -/
def isJavaScriptFile (p : String) : Bool :=
  strEndsWith p ".js" || strEndsWith p ".jsx" || strEndsWith p ".ts" ||
  strEndsWith p ".tsx" || strEndsWith p ".mjs" || strEndsWith p ".mts"

/-- `getOutputPath`: `filePath.replace(/\.tsx?$/, ".js").replace(/\.mts$/, ".mjs")`.
Each regex is end-anchored so each `replace` rewrites at most one suffix; the
second runs on the result of the first. -/
def getOutputPath (p : String) : String :=
  let s1 :=
    if strEndsWith p ".tsx" then strDropRight p 4 ++ ".js"
    else if strEndsWith p ".ts" then strDropRight p 3 ++ ".js"
    else p
  if strEndsWith s1 ".mts" then strDropRight s1 4 ++ ".mjs" else s1

/-! ## JSON (host builtin `JSON.parse`) -/

/-- JSON values.  Numeric literals are kept as their raw text: no claim
inspects a number. -/
inductive Json where
  | null : Json
  | bool : Bool → Json
  | num : String → Json
  | str : String → Json
  | arr : List Json → Json
  | obj : List (String × Json) → Json

def isWsChar (c : Char) : Bool :=
  c = ' ' || c = Char.ofNat 10 || c = Char.ofNat 9 || c = Char.ofNat 13

def skipWs (cs : List Char) : List Char := cs.dropWhile isWsChar

def quoteChar : Char := Char.ofNat 34

def openBrace : Char := Char.ofNat 123

def closeBrace : Char := Char.ofNat 125

def backslashChar : Char := Char.ofNat 92

/-- Decode a JSON escape character. -/
def jsonEscape (c : Char) : Option Char :=
  if c = quoteChar then some quoteChar
  else if c = backslashChar then some backslashChar
  else if c = '/' then some '/'
  else if c = 'n' then some (Char.ofNat 10)
  else if c = 't' then some (Char.ofNat 9)
  else if c = 'r' then some (Char.ofNat 13)
  else if c = 'b' then some (Char.ofNat 8)
  else if c = 'f' then some (Char.ofNat 12)
  else none

/-- Parse the remainder of a JSON string literal (opening quote consumed). -/
def parseStringLit : List Char → Option (List Char × List Char)
  | [] => none
  | c :: rest =>
    if c = quoteChar then some ([], rest)
    else if c = backslashChar then
      match rest with
      | [] => none
      | e :: rest2 =>
        match jsonEscape e with
        | none => none
        | some ch =>
          match parseStringLit rest2 with
          | none => none
          | some (s, r) => some (ch :: s, r)
    else
      match parseStringLit rest with
      | none => none
      | some (s, r) => some (c :: s, r)

def isDigitChar (c : Char) : Bool :=
  c = '0' || c = '1' || c = '2' || c = '3' || c = '4' ||
  c = '5' || c = '6' || c = '7' || c = '8' || c = '9'

def isNumChar (c : Char) : Bool :=
  isDigitChar c || c = '-' || c = '+' || c = '.' || c = 'e' || c = 'E'

/-- Loose JSON number scan; the raw text is kept. -/
def parseNumLit (cs : List Char) : Option (Json × List Char) :=
  let run := cs.takeWhile isNumChar
  if run.isEmpty then none
  else some (Json.num (String.mk run), cs.drop run.length)

def startsWithChars (cs : List Char) (s : String) : Bool :=
  listPrefixOf s.data cs

mutual

/-- Embedding of `JSON.parse`: parse one JSON value. -/
def parseValue : Nat → List Char → Option (Json × List Char)
  | 0, _ => none
  | fuel + 1, cs0 =>
    let cs := skipWs cs0
    match cs with
    | [] => none
    | c :: rest =>
      if c = quoteChar then
        match parseStringLit rest with
        | some (s, r) => some (Json.str (String.mk s), r)
        | none => none
      else if c = openBrace then
        let cs1 := skipWs rest
        match cs1 with
        | d :: r1 =>
          if d = closeBrace then some (Json.obj [], r1)
          else
            match parseMembers fuel cs1 with
            | some (ms, r) => some (Json.obj ms, r)
            | none => none
        | [] => none
      else if c = '[' then
        let cs1 := skipWs rest
        match cs1 with
        | d :: r1 =>
          if d = ']' then some (Json.arr [], r1)
          else
            match parseElems fuel cs1 with
            | some (es, r) => some (Json.arr es, r)
            | none => none
        | [] => none
      else if startsWithChars cs "true" then some (Json.bool true, cs.drop 4)
      else if startsWithChars cs "false" then some (Json.bool false, cs.drop 5)
      else if startsWithChars cs "null" then some (Json.null, cs.drop 4)
      else parseNumLit cs

/-- Parse one or more `"key": value` members followed by a closing brace. -/
def parseMembers : Nat → List Char → Option (List (String × Json) × List Char)
  | 0, _ => none
  | fuel + 1, cs0 =>
    let cs := skipWs cs0
    match cs with
    | c :: rest =>
      if c = quoteChar then
        match parseStringLit rest with
        | some (k, r1) =>
          let r2 := skipWs r1
          match r2 with
          | d :: r3 =>
            if d = ':' then
              match parseValue fuel r3 with
              | some (v, r4) =>
                let r5 := skipWs r4
                match r5 with
                | e :: r6 =>
                  if e = ',' then
                    match parseMembers fuel r6 with
                    | some (ms, r7) => some ((String.mk k, v) :: ms, r7)
                    | none => none
                  else if e = closeBrace then some ([(String.mk k, v)], r6)
                  else none
                | [] => none
              | none => none
            else none
          | [] => none
        | none => none
      else none
    | [] => none

/-- Parse one or more array elements followed by `]`. -/
def parseElems : Nat → List Char → Option (List Json × List Char)
  | 0, _ => none
  | fuel + 1, cs0 =>
    match parseValue fuel cs0 with
    | some (v, r1) =>
      let r2 := skipWs r1
      match r2 with
      | e :: r3 =>
        if e = ',' then
          match parseElems fuel r3 with
          | some (es, r4) => some (v :: es, r4)
          | none => none
        else if e = ']' then some ([v], r3)
        else none
      | [] => none
    | none => none

end

/-- `JSON.parse(s)` as a total function: `none` models the thrown SyntaxError. -/
def jsonParse (s : String) : Option Json :=
  match parseValue (strLen s + 1) s.data with
  | some (j, rest) => if skipWs rest = [] then some j else none
  | none => none

def Json.getField : Json → String → Option Json
  | .obj kvs, k => lookupStr kvs k
  | _, _ => none

def Json.asString : Json → Option String
  | .str s => some s
  | _ => none

/-- JS truthiness of a JSON value. -/
def jsonTruthy : Json → Bool
  | .null => false
  | .bool b => b
  | .num n => n ≠ "0" && n ≠ "-0"
  | .str s => s ≠ ""
  | .arr _ => true
  | .obj _ => true

/-! ## resolver.ts -/

structure ResolveResult where
  path : String
  external : Bool
deriving DecidableEq, Repr

def DEFAULT_EXTENSIONS : List String :=
  [".ts", ".tsx", ".js", ".jsx", ".mts", ".mjs", ".json"]

def defaultConditions : List String := ["import", "browser"]

/-- `getDirectory`: everything before the last slash, or the empty string. -/
def getDirectory (p : String) : String :=
  match p.data.reverse.findIdx? (· = '/') with
  | none => ""
  | some i => String.mk (p.data.take (p.data.length - 1 - i))

/-- `joinPaths`: resolve `..`/`.` segments of `relative` against `base`. -/
def joinPaths (base : String) (relative : String) : String :=
  if strStartsWith relative "/" then strDrop relative 1
  else
    let baseParts := if base = "" then [] else splitOnChar '/' base
    let relParts := splitOnChar '/' relative
    let finalParts := relParts.foldl
      (fun acc part =>
        if part = ".." then acc.dropLast
        else if part = "." then acc
        else acc ++ [part]) baseParts
    strJoin "/" finalParts

/-- Collapse runs of slashes to one (the regex `\/+` → `/`). -/
def squashSlashes : List Char → List Char
  | [] => []
  | [c] => [c]
  | c1 :: c2 :: rest =>
    if c1 = '/' && c2 = '/' then squashSlashes (c2 :: rest)
    else c1 :: squashSlashes (c2 :: rest)

/-- `normalizePath`: strip a leading `./`, collapse slashes, strip a trailing slash. -/
def normalizePath (p : String) : String :=
  let p1 := if strStartsWith p "./" then strDrop p 2 else p
  let p2 := String.mk (squashSlashes p1.data)
  if strEndsWith p2 "/" then strDropRight p2 1 else p2

/-- `normalizeRelativePath`: strip one leading `./` or `/`. -/
def normalizeRelativePath (p : String) : String :=
  if strStartsWith p "./" then strDrop p 2
  else if strStartsWith p "/" then strDrop p 1
  else p

/-- `resolveWithExtensions`: exact key, then each extension, then `/index` + extension. -/
def resolveWithExtensions (path : String) (files : Files) (exts : List String) :
    Option String :=
  let normalized := normalizePath path
  if (lookupStr files normalized).isSome then some normalized
  else
    match exts.find? (fun ext => (lookupStr files (normalized ++ ext)).isSome) with
    | some ext => some (normalized ++ ext)
    | none =>
      match exts.find?
          (fun ext => (lookupStr files (normalized ++ "/index" ++ ext)).isSome) with
      | some ext => some (normalized ++ "/index" ++ ext)
      | none => none

/-- `resolveRelative`: join against the importer's directory and probe. -/
def resolveRelative (specifier : String) (importer : String) (files : Files)
    (exts : List String) : Option String :=
  resolveWithExtensions (joinPaths (getDirectory importer) specifier) files exts

/-- `parsePackageSpecifier`: scoped names consume two segments, unscoped one;
an empty remainder becomes no subpath (the `|| undefined`). -/
def parsePackageSpecifier (specifier : String) : String × Option String :=
  if strStartsWith specifier "@" then
    match splitOnChar '/' specifier with
    | p0 :: p1 :: rest =>
      let sub := strJoin "/" rest
      (p0 ++ "/" ++ p1, if sub = "" then none else some sub)
    | _ =>
      (specifier, none)
  else
    match specifier.data.findIdx? (· = '/') with
    | none => (specifier, none)
    | some i => (strTake specifier i, some (strDrop specifier (i + 1)))

/-- Pick the first condition (then `"default"`) bound to a string. -/
def condLookup (ckvs : List (String × Json)) (conds : List String) : Option String :=
  (conds ++ ["default"]).findSome?
    (fun c => match lookupStr ckvs c with | some (.str s) => some s | _ => none)

/-- Modelled from the spec: the conditional-exports lookup of the external
resolve.exports library (absent from src) — an exports field is either a
direct string, a map keyed by subpaths, or a map keyed by conditions,
resolved by the supplied condition priority list with a `default` fallback. -/
def resolveExportsField (e : Json) (sub : String) (conds : List String) :
    Option String :=
  match e with
  | .str s => if sub = "." then some s else none
  | .obj kvs =>
    if kvs.any (fun kv => strStartsWith kv.1 ".") then
      match lookupStr kvs sub with
      | some (.str s) => some s
      | some (.obj ckvs) => condLookup ckvs conds
      | _ => none
    else if sub = "." then condLookup kvs conds
    else none
  | _ => none

/-- Modelled from the spec: `resolveExports.resolve(pkg, entrySubpath, {conditions})`. -/
def exportsResolve (pkg : Json) (entrySubpath : String) (conds : List String) :
    Option String :=
  match pkg.getField "exports" with
  | none => none
  | some e => resolveExportsField e entrySubpath conds

/-- Modelled from the spec: `resolveExports.legacy(pkg, {fields: ["module","main"]})`
returns the first of those fields bound to a string. -/
def legacyResolve (pkg : Json) : Option String :=
  match pkg.getField "module" with
  | some (.str s) => some s
  | _ =>
    match pkg.getField "main" with
    | some (.str s) => some s
    | _ => none

def invalidPkgMsg (name : String) : String := "Invalid package.json for " ++ name

/-- Probe `node_modules/<name>[/<subpath>]` with extensions and index files;
a present-but-unresolvable package degrades to external. -/
def resolvePackageIndex (packageName : String) (subpath : Option String)
    (specifier : String) (files : Files) (exts : List String) :
    Except String ResolveResult :=
  match resolveWithExtensions
      ("node_modules/" ++ packageName ++
        (match subpath with | some s => "/" ++ s | none => ""))
      files exts with
  | some p => .ok ⟨p, false⟩
  | none => .ok ⟨specifier, true⟩

/-- `resolvePackage`: manifest lookup, exports-field resolution, legacy
`module`/`main` fields, then direct probing; throws on an unparseable manifest. -/
def resolvePackage (specifier : String) (files : Files) (conds : List String)
    (exts : List String) : Except String ResolveResult :=
  let pn := parsePackageSpecifier specifier
  let packageName := pn.1
  let subpath := pn.2
  match lookupStr files ("node_modules/" ++ packageName ++ "/package.json") with
  | none => .ok ⟨specifier, true⟩
  | some content =>
    if content = "" then .ok ⟨specifier, true⟩
    else
      match jsonParse content with
      | none => .error (invalidPkgMsg packageName)
      | some pkg =>
        let entrySubpath := match subpath with | some s => "./" ++ s | none => "."
        let viaExports :=
          match exportsResolve pkg entrySubpath conds with
          | some rp =>
            let fullPath :=
              "node_modules/" ++ packageName ++ "/" ++ normalizeRelativePath rp
            if (lookupStr files fullPath).isSome then some fullPath else none
          | none => none
        match viaExports with
        | some p => .ok ⟨p, false⟩
        | none =>
          match legacyResolve pkg with
          | some le =>
            let fullPath :=
              "node_modules/" ++ packageName ++ "/" ++ normalizeRelativePath le
            if (lookupStr files fullPath).isSome then .ok ⟨fullPath, false⟩
            else resolvePackageIndex packageName subpath specifier files exts
          | none => resolvePackageIndex packageName subpath specifier files exts

def relativeErrMsg (specifier importer : String) : String :=
  "Cannot resolve relative import " ++ sqStr ++ specifier ++ sqStr ++
    " from " ++ sqStr ++ importer ++ sqStr

/-- `resolveModule`: relative specifiers resolve internally or throw; bare
specifiers go through package resolution. -/
def resolveModule (specifier : String) (files : Files) (importer : String)
    (conds : List String) (exts : List String) : Except String ResolveResult :=
  if strStartsWith specifier "." || strStartsWith specifier "/" then
    match resolveRelative specifier importer files exts with
    | some resolved => .ok ⟨resolved, false⟩
    | none => .error (relativeErrMsg specifier importer)
  else
    resolvePackage specifier files conds exts

/-- `resolveModule` with the defaulted options. -/
def resolveModuleD (specifier : String) (files : Files) (importer : String) :
    Except String ResolveResult :=
  resolveModule specifier files importer defaultConditions DEFAULT_EXTENSIONS

/-! ## Theorems: C9 and C10 -/

/-- C9: The output-path function is a pure extension substitution:
`getOutputPath "a/b.ts" = "a/b.js"`, `getOutputPath "a/b.tsx" = "a/b.js"`,
`getOutputPath "a/b.mts" = "a/b.mjs"`, and `getOutputPath "a/b.js" = "a/b.js"`. -/
theorem c9_output_path_extension_substitution :
    getOutputPath "a/b.ts" = "a/b.js" ∧
    getOutputPath "a/b.tsx" = "a/b.js" ∧
    getOutputPath "a/b.mts" = "a/b.mjs" ∧
    getOutputPath "a/b.js" = "a/b.js" := by
  decide

/-- C10: For every specifier beginning with `.` or `/`, `resolveModule` never
returns a result with `external = true`: it either returns an internal path
with `external = false` or raises an error; the external degradation is
reachable only for bare package specifiers. -/
theorem c10_relative_never_external (specifier : String) (files : Files)
    (importer : String) (conds exts : List String) (r : ResolveResult)
    (hrel : strStartsWith specifier "." = true ∨ strStartsWith specifier "/" = true)
    (hok : resolveModule specifier files importer conds exts = .ok r) :
    r.external = false := by
  unfold resolveModule at hok
  have hcond : (strStartsWith specifier "." || strStartsWith specifier "/") = true := by
    rcases hrel with h | h <;> simp [h]
  rw [if_pos hcond] at hok
  cases hres : resolveRelative specifier importer files exts with
  | none => rw [hres] at hok; exact absurd hok (by simp)
  | some p =>
    rw [hres] at hok
    have : ResolveResult.mk p false = r := by
      simpa using hok
    rw [← this]

/-- Witness for C10 at a concrete input. -/
theorem c10_relative_never_external_witness :
    resolveModule "./a" [("a.ts", "")] "" defaultConditions DEFAULT_EXTENSIONS =
      .ok ⟨"a.ts", false⟩ ∧
    (ResolveResult.mk "a.ts" false).external = false := by
  refine ⟨by rfl, ?_⟩
  exact c10_relative_never_external "./a" [("a.ts", "")] "" defaultConditions
    DEFAULT_EXTENSIONS ⟨"a.ts", false⟩ (Or.inl (by decide)) (by rfl)

/-! ## Version resolution (dynamic-worker-bundler installer.ts) -/

/-- Per-version registry manifest: the dependency map and the extracted
tarball contents (`none` models a missing tarball URL). -/
structure VersionMeta where
  dependencies : List (String × String)
  dist : Option (List (String × String))
deriving DecidableEq, Repr

/-- `NpmPackageMetadata`: dist-tags and the version map. -/
structure RegMeta where
  distTags : List (String × String)
  versions : List (String × VersionMeta)
deriving DecidableEq, Repr

/-- The registry: package name → metadata (`none` lookup models a 404). -/
abbrev Registry := List (String × RegMeta)

def digitVal (c : Char) : Nat :=
  if c = '0' then 0 else if c = '1' then 1 else if c = '2' then 2
  else if c = '3' then 3 else if c = '4' then 4 else if c = '5' then 5
  else if c = '6' then 6 else if c = '7' then 7 else if c = '8' then 8
  else if c = '9' then 9 else 0

def digitsToNat (cs : List Char) : Nat :=
  cs.foldl (fun n c => n * 10 + digitVal c) 0

/-- JS `parseInt(s, 10)`: `none` models NaN. -/
def jsParseInt (s : String) : Option Int :=
  let t := s.data.dropWhile isWsChar
  let core := fun (cs : List Char) =>
    let run := cs.takeWhile isDigitChar
    if run.isEmpty then (none : Option Nat) else some (digitsToNat run)
  match t with
  | '-' :: rest => (core rest).map (fun n => -(n : Int))
  | '+' :: rest => (core rest).map (fun n => (n : Int))
  | _ => (core t).map (fun n => (n : Int))

/-- JS `===` on two `parseInt` results; NaN compares unequal to everything. -/
def parseIntEq (a b : Option Int) : Bool :=
  match a, b with
  | some x, some y => x = y
  | _, _ => false

/-- `parseInt(p.replace(/[^0-9]/g, ""), 10) || 0`. -/
def verSegNum (p : String) : Nat := digitsToNat (p.data.filter isDigitChar)

/-- `compareVersions`: numeric comparison of the first three dotted segments. -/
def compareVersions (a b : String) : Int :=
  let ap := (splitOnChar '.' a).map verSegNum
  let bp := (splitOnChar '.' b).map verSegNum
  let a0 : Int := ap.getD 0 0
  let b0 : Int := bp.getD 0 0
  let a1 : Int := ap.getD 1 0
  let b1 : Int := bp.getD 1 0
  let a2 : Int := ap.getD 2 0
  let b2 : Int := bp.getD 2 0
  if a0 ≠ b0 then a0 - b0
  else if a1 ≠ b1 then a1 - b1
  else if a2 ≠ b2 then a2 - b2
  else 0

/-- Stable insertion of `x` after all elements not strictly greater. -/
def insertSorted (lt : String → String → Bool) (x : String) :
    List String → List String
  | [] => [x]
  | y :: ys => if lt x y then x :: y :: ys else y :: insertSorted lt x ys

/-- JS `Array.prototype.sort(cmp)`: stable ascending sort. -/
def sortByCmp (lt : String → String → Bool) : List String → List String
  | [] => []
  | x :: xs => insertSorted lt x (sortByCmp lt xs)

def isRangeOpChar (c : Char) : Bool :=
  c = '^' || c = '~' || c = '>' || c = '=' || c = '<'

/-- `resolveVersion` of the dynamic-worker-bundler installer: special tags,
exact version, dist-tag, then the simplified range handling that filters
candidates by their major version only. -/
def resolveVersion (range : String) (meta : RegMeta) : Option String :=
  if range = "latest" || range = "*" then lookupStr meta.distTags "latest"
  else if (lookupStr meta.versions range).isSome then some range
  else
    let tagHit :=
      match lookupStr meta.distTags range with
      | some v => if v = "" then none else some v
      | none => none
    match tagHit with
    | some v => some v
    | none =>
      let versions := meta.versions.map Prod.fst
      let cleanRange := String.mk (range.data.dropWhile isRangeOpChar)
      let majorStr := (splitOnChar '.' cleanRange).headD ""
      let major := jsParseInt majorStr
      if strStartsWith range "^" || strStartsWith range "~" then
        let matching := (versions.filter (fun v =>
          parseIntEq (jsParseInt ((splitOnChar '.' v).headD "")) major))
        (((sortByCmp (fun a b => compareVersions a b < 0) matching)).reverse).head?
      else if strStartsWith range ">=" then lookupStr meta.distTags "latest"
      else (((sortByCmp (fun a b => compareVersions a b < 0) versions)).reverse).head?

/-! ## Sequential installer (dynamic-worker-bundler installer.ts) -/

/-- Installer state: the mutable `result` object, the `installedPackages`
ledger, and a log of network fetches actually performed. -/
structure InstallState where
  files : Files
  installed : List String
  warnings : List String
  installedPackages : List (String × String)
  netLog : List String
deriving DecidableEq, Repr

/-- `Object.entries` of a JSON object whose values are strings. -/
def objStrEntries : Option Json → List (String × String)
  | some (.obj kvs) =>
    kvs.filterMap (fun kv => match kv.2 with | .str s => some (kv.1, s) | _ => none)
  | _ => []

/-- JS object spread `{...a, ...b}`: later keys overwrite earlier ones in place. -/
def mergeEntries (a b : List (String × String)) : List (String × String) :=
  b.foldl (fun acc kv => setKey acc kv.1 kv.2) a

/-- `installPackage` of the sequential installer: ledger check, metadata
fetch, version resolution, commit before recursion, tarball fetch and
extraction, then recursive installs of the version's dependency map. -/
def installPackageSeq : Nat → Registry → String → String → InstallState → InstallState
  | 0, _, _, _, st => st
  | fuel + 1, reg, name, range, st =>
    if (lookupStr st.installedPackages name).isSome then st
    else
      let st1 := { st with netLog := st.netLog ++ ["meta:" ++ name] }
      match lookupStr reg name with
      | none =>
        { st1 with warnings := st1.warnings ++
            ["Failed to install " ++ name ++ ": Failed to fetch package metadata: 404"] }
      | some meta =>
        match resolveVersion range meta with
        | none =>
          { st1 with warnings := st1.warnings ++
              ["Could not resolve version for " ++ name ++ "@" ++ range] }
        | some version =>
          match lookupStr meta.versions version with
          | none =>
            { st1 with warnings := st1.warnings ++
                ["Version " ++ version ++ " not found for " ++ name] }
          | some vm =>
            let st2 := { st1 with
              installedPackages := st1.installedPackages ++ [(name, version)],
              installed := st1.installed ++ [name ++ "@" ++ version] }
            match vm.dist with
            | none =>
              { st2 with warnings := st2.warnings ++
                  ["Failed to install " ++ name ++ ": No tarball URL for " ++ name] }
            | some tarFiles =>
              let st3 := { st2 with netLog := st2.netLog ++ ["tarball:" ++ name] }
              let newFiles := tarFiles.foldl
                (fun fs pc => setKey fs ("node_modules/" ++ name ++ "/" ++ pc.1) pc.2)
                st3.files
              let st4 := { st3 with files := newFiles }
              vm.dependencies.foldl
                (fun acc dep => installPackageSeq fuel reg dep.1 dep.2 acc) st4

/-- `installDependencies` of the sequential installer: read and parse the
root manifest, collect the dependency map, install each entry in order. -/
def installDependenciesSeq (fuel : Nat) (reg : Registry) (files : Files)
    (dev : Bool) : InstallState :=
  let st : InstallState :=
    { files := files, installed := [], warnings := [], installedPackages := [],
      netLog := [] }
  match lookupStr files "package.json" with
  | none => st
  | some content =>
    if content = "" then st
    else
      match jsonParse content with
      | none => { st with warnings := ["Failed to parse package.json"] }
      | some pkg =>
        let depsToInstall := mergeEntries
          (objStrEntries (pkg.getField "dependencies"))
          (if dev then objStrEntries (pkg.getField "devDependencies") else [])
        if depsToInstall.isEmpty then st
        else
          depsToInstall.foldl
            (fun acc dep => installPackageSeq fuel reg dep.1 dep.2 acc) st

/-! ## Entry-point detection (bundler.ts) -/

/-- `normalizeEntryPath`: strip a leading `./`. -/
def normalizeEntryPath (p : String) : String :=
  if strStartsWith p "./" then strDrop p 2 else p

/-- The default entry candidates, probed in order. -/
def defaultEntryScan (files : Files) : Option String :=
  ["src/index.ts", "src/index.js", "src/index.mts", "src/index.mjs",
   "index.ts", "index.js", "src/worker.ts", "src/worker.js"].find?
    (fun e => (lookupStr files e).isSome)

/-- The nullish-coalescing chain `exp["import"] ?? exp["default"] ?? exp["module"]`. -/
def firstNonNullish (l : List (Option Json)) : Option Json :=
  l.findSome? (fun o => match o with
    | some Json.null => none
    | some j => some j
    | none => none)

/-- Entry-point extraction from a parsed manifest: the `exports` field
(string, `"."` entry, conditional object), then `module`, then `main`. -/
def detectFromPkg (pkg : Json) : Option String :=
  let fromExports :=
    match pkg.getField "exports" with
    | none => none
    | some e =>
      if jsonTruthy e then
        match e with
        | .str s => some (normalizeEntryPath s)
        | .obj kvs =>
          match lookupStr kvs "." with
          | none => none
          | some dot =>
            if jsonTruthy dot then
              match dot with
              | .str s => some (normalizeEntryPath s)
              | .obj ckvs =>
                match firstNonNullish
                    [lookupStr ckvs "import", lookupStr ckvs "default",
                     lookupStr ckvs "module"] with
                | some (.str s) => some (normalizeEntryPath s)
                | _ => none
              | _ => none
            else none
        | _ => none
      else none
  match fromExports with
  | some s => some s
  | none =>
    match pkg.getField "module" with
    | some m =>
      if jsonTruthy m then
        match m with
        | .str s => some (normalizeEntryPath s)
        | _ => none
      else
        match pkg.getField "main" with
        | some (.str s) => if s ≠ "" then some (normalizeEntryPath s) else none
        | _ => none
    | none =>
      match pkg.getField "main" with
      | some mn =>
        if jsonTruthy mn then
          match mn with
          | .str s => some (normalizeEntryPath s)
          | _ => none
        else none
      | none => none

/-- `detectEntryPoint`: manifest-driven detection, falling through to the
default candidates when the manifest is absent, unparseable, or silent. -/
def detectEntryPoint (files : Files) : Option String :=
  let fromPkg :=
    match lookupStr files "package.json" with
    | none => none
    | some content =>
      if content = "" then none
      else
        match jsonParse content with
        | none => none
        | some pkg => detectFromPkg pkg
  match fromPkg with
  | some e => some e
  | none => defaultEntryScan files

/-! ## createWorker prelude (bundler.ts): install, then entry-point checks -/

def entryUndeterminedMsg : String :=
  "Could not determine entry point. Please specify entryPoint option."

def entryNotFoundMsg (e : String) : String :=
  "Entry point " ++ dqStr ++ e ++ dqStr ++ " not found in files."

/-- The outcome of `createWorker` up to (and including) the entry-point
checks: the network calls performed, the post-install file set, and either
the fatal entry-point error or the chosen entry point. -/
structure CreateWorkerPre where
  netLog : List String
  files : Files
  installWarnings : List String
  outcome : Except String String

/-- `createWorker` prelude: when `fetchDependencies` is set the installer
runs first (performing its network fetches); only then is the entry point
detected and checked. -/
def createWorkerPre (fuel : Nat) (reg : Registry) (files0 : Files)
    (entryPointOpt : Option String) (fetchDependencies : Bool) : CreateWorkerPre :=
  let afterInstall :=
    if fetchDependencies then
      let r := installDependenciesSeq fuel reg files0 false
      (r.files, r.netLog, r.warnings)
    else (files0, [], [])
  let files := afterInstall.1
  let netLog := afterInstall.2.1
  let iw := afterInstall.2.2
  let entry :=
    match entryPointOpt with
    | some e => some e
    | none => detectEntryPoint files
  match entry with
  | none =>
    { netLog := netLog, files := files, installWarnings := iw,
      outcome := .error entryUndeterminedMsg }
  | some e =>
    if (lookupStr files e).isSome then
      { netLog := netLog, files := files, installWarnings := iw, outcome := .ok e }
    else
      { netLog := netLog, files := files, installWarnings := iw,
        outcome := .error (entryNotFoundMsg e) }

/-! ## Theorems: C3, C2, C4 -/

def c3MetaCaret : RegMeta :=
  { distTags := [],
    versions := [("1.0.0", ⟨[], none⟩), ("1.1.0", ⟨[], none⟩),
                 ("1.2.3", ⟨[], none⟩), ("2.0.0", ⟨[], none⟩)] }

def c3MetaTilde : RegMeta :=
  { distTags := [],
    versions := [("1.2.0", ⟨[], none⟩), ("1.2.5", ⟨[], none⟩),
                 ("1.3.0", ⟨[], none⟩)] }

/-- C3 (evidence of the divergence): the caret example resolves to `1.2.3`
as claimed, but `resolveVersion` filters candidates by major version only,
so `~1.2.0` against `{1.2.0, 1.2.5, 1.3.0}` resolves to `1.3.0`, not the
`1.2.5` that the claim (and the repository's own tilde test) expects. -/
theorem c3_resolveVersion_tilde_ignores_minor :
    resolveVersion "^1.0.0" c3MetaCaret = some "1.2.3" ∧
    resolveVersion "~1.2.0" c3MetaTilde = some "1.3.0" ∧
    resolveVersion "~1.2.0" c3MetaTilde ≠ some "1.2.5" := by
  decide

def c2PkgJson : String := "\x7b\"dependencies\":\x7b\"x\":\"1.0.0\"\x7d\x7d"

def c2Registry : Registry :=
  [("x", { distTags := [("latest", "1.0.0")],
           versions := [("1.0.0", ⟨[], some [("index.js", "module.exports = 1;")]⟩)] })]

/-- C2 counterexample: for the file set `{package.json: {dependencies: {x: 1.0.0}}}`
with no resolvable entry point and `fetchDependencies = true`, `createWorker`
does fail with the entry-point error, but the installer's metadata and
tarball fetches have already happened before that failure — refuting the
claim that no network call precedes the failure for every option setting. -/
theorem c2_counterexample_network_before_entry_failure :
    (createWorkerPre 4 c2Registry [("package.json", c2PkgJson)] none true).outcome
        = .error entryUndeterminedMsg ∧
    (createWorkerPre 4 c2Registry [("package.json", c2PkgJson)] none true).netLog
        = ["meta:x", "tarball:x"] :=
  ⟨rfl, rfl⟩

/-- C2 amended: for every input file set whose entry point is missing —
no entry point determined at all, or an entry point (explicit or detected,
e.g. a `package.json` `main` naming an absent path) that is not a key of the
file set — `createWorker` fails with the entry-point error, and, provided
`fetchDependencies` is false (its default), no network call is performed
before that failure.  (With `fetchDependencies = true`, installation and its
network fetches run before entry-point detection.) -/
theorem c2_entry_missing_no_network_without_fetch (fuel : Nat) (reg : Registry)
    (files : Files) (epOpt : Option String)
    (hmiss : ∀ e : String,
      (match epOpt with
       | some e0 => some e0
       | none => detectEntryPoint files) = some e →
      lookupStr files e = none) :
    (createWorkerPre fuel reg files epOpt false).netLog = [] ∧
    ∃ msg, (createWorkerPre fuel reg files epOpt false).outcome = .error msg := by
  cases epOpt with
  | none =>
    have hred : createWorkerPre fuel reg files none false =
        (match detectEntryPoint files with
         | none => ⟨[], files, [], .error entryUndeterminedMsg⟩
         | some e =>
           if (lookupStr files e).isSome then ⟨[], files, [], .ok e⟩
           else ⟨[], files, [], .error (entryNotFoundMsg e)⟩) := rfl
    cases hdet : detectEntryPoint files with
    | none =>
      rw [hred, hdet]
      exact ⟨rfl, entryUndeterminedMsg, rfl⟩
    | some e =>
      have hm : lookupStr files e = none := hmiss e hdet
      have hred2 : createWorkerPre fuel reg files none false =
          (if (lookupStr files e).isSome then (⟨[], files, [], .ok e⟩ : CreateWorkerPre)
           else ⟨[], files, [], .error (entryNotFoundMsg e)⟩) := by
        rw [hred, hdet]
      rw [hred2, hm]
      exact ⟨rfl, entryNotFoundMsg e, rfl⟩
  | some e =>
    have hred : createWorkerPre fuel reg files (some e) false =
        (if (lookupStr files e).isSome then (⟨[], files, [], .ok e⟩ : CreateWorkerPre)
         else ⟨[], files, [], .error (entryNotFoundMsg e)⟩) := rfl
    have hm : lookupStr files e = none := hmiss e rfl
    rw [hred, hm]
    exact ⟨rfl, entryNotFoundMsg e, rfl⟩

/-- A manifest whose `main` names a path absent from the file set: the
detected entry point exists but is missing. -/
def c2MainFiles : Files := [("package.json", "\x7b\"main\":\"dist/index.js\"\x7d")]

/-- Witness for C2 amended at a concrete input whose detected entry point
(`package.json` `main` → `dist/index.js`) is absent from the file set. -/
theorem c2_entry_missing_no_network_without_fetch_witness :
    (createWorkerPre 0 [] c2MainFiles none false).netLog = [] ∧
    ∃ msg, (createWorkerPre 0 [] c2MainFiles none false).outcome = .error msg :=
  c2_entry_missing_no_network_without_fetch 0 [] c2MainFiles none
    (by
      intro e h
      have hd : detectEntryPoint c2MainFiles = some "dist/index.js" := rfl
      rw [hd] at h
      rw [← Option.some.inj h]
      rfl)

def c4BadManifest : String := String.mk [openBrace]

/-- C4 counterexample: `resolveModule` on the bare specifier `foo`, when
`node_modules/foo/package.json` is present but fails to parse as JSON, does
NOT treat the manifest as absent — it throws `Invalid package.json for foo`,
refuting the claim that it does not throw. -/
theorem c4_counterexample_resolveModule_throws :
    resolveModuleD "foo" [("node_modules/foo/package.json", c4BadManifest)]
        "src/index.ts" = .error "Invalid package.json for foo" := rfl

/-- C4 amended: a manifest whose content fails to parse as JSON is non-fatal
and treated as absent during install (warning, input returned unchanged) and
during entry-point detection (falls through to the default candidates); but
`resolveModule` on a bare specifier whose `node_modules` manifest is present
and unparseable throws an `Invalid package.json` error (which callers catch
per-import) instead of treating it as absent. -/
theorem c4_manifest_parse_failure_behavior :
    (∀ (fuel : Nat) (reg : Registry) (files : Files) (dev : Bool) (c : String),
      lookupStr files "package.json" = some c → c ≠ "" → jsonParse c = none →
      installDependenciesSeq fuel reg files dev =
        { files := files, installed := [],
          warnings := ["Failed to parse package.json"],
          installedPackages := [], netLog := [] }) ∧
    (∀ (files : Files) (c : String),
      lookupStr files "package.json" = some c → c ≠ "" → jsonParse c = none →
      detectEntryPoint files = defaultEntryScan files) ∧
    (∀ (files : Files) (name importer c : String),
      strStartsWith name "." = false → strStartsWith name "/" = false →
      parsePackageSpecifier name = (name, none) →
      lookupStr files ("node_modules/" ++ name ++ "/package.json") = some c →
      c ≠ "" → jsonParse c = none →
      resolveModuleD name files importer = .error (invalidPkgMsg name)) := by
  refine ⟨?_, ?_, ?_⟩
  · intro fuel reg files dev c h1 h2 h3
    simp only [installDependenciesSeq, h1, h3, if_neg h2]
  · intro files c h1 h2 h3
    simp only [detectEntryPoint, h1, h3, if_neg h2]
  · intro files name importer c h0 h0' hp h1 h2 h3
    simp only [resolveModuleD, resolveModule, h0, h0', Bool.or_self,
      Bool.false_eq_true, if_false, resolvePackage, hp, h1, h3, if_neg h2]

/-- Witness for C4 amended at concrete inputs. -/
theorem c4_manifest_parse_failure_behavior_witness :
    installDependenciesSeq 0 [] [("package.json", c4BadManifest)] false =
      { files := [("package.json", c4BadManifest)], installed := [],
        warnings := ["Failed to parse package.json"],
        installedPackages := [], netLog := [] } ∧
    detectEntryPoint [("package.json", c4BadManifest)] =
      defaultEntryScan [("package.json", c4BadManifest)] ∧
    resolveModuleD "foo" [("node_modules/foo/package.json", c4BadManifest)] "" =
      .error (invalidPkgMsg "foo") :=
  ⟨c4_manifest_parse_failure_behavior.1 0 [] _ false c4BadManifest rfl
      (by decide) rfl,
   c4_manifest_parse_failure_behavior.2.1 _ c4BadManifest rfl (by decide) rfl,
   c4_manifest_parse_failure_behavior.2.2 _ "foo" "" c4BadManifest rfl rfl rfl
      rfl (by decide) rfl⟩

/-! ## Import scanning (the regex-based parser of resolver.ts / bundler.ts) -/

def singleQuote : Char := Char.ofNat 39

def isQuoteChar (c : Char) : Bool := c = quoteChar || c = singleQuote

/-- `\w`: ASCII letters, digits, underscore. -/
def isWordChar (c : Char) : Bool :=
  isDigitChar c || (97 ≤ c.toNat && c.toNat ≤ 122) ||
  (65 ≤ c.toNat && c.toNat ≤ 90) || c = '_'

/-- The regex class `[\w*{}\s,]` used for import/export clauses. -/
def isClassChar (c : Char) : Bool :=
  isWordChar c || c = '*' || c = openBrace || c = closeBrace ||
  isWsChar c || c = ','

def listSuffixOfC (a b : List Char) : Bool := listPrefixOf a.reverse b.reverse

def listContains (l : List String) (s : String) : Bool := l.any (fun t => t = s)

def dedupFirst (l : List String) : List String :=
  l.foldl (fun acc s => if listContains acc s then acc else acc ++ [s]) []

/-- Generic JS object assignment on an association list. -/
def setAssoc {α : Type} (l : List (String × α)) (k : String) (v : α) :
    List (String × α) :=
  match l with
  | [] => [(k, v)]
  | (k0, v0) :: rest =>
    if k0 = k then (k, v) :: rest else (k0, v0) :: setAssoc rest k v

/-- Match `(['"])([^'"]+)['"]` at the head of `cs`; when `sameClose` is set the
closing quote must equal the opening one (the backreference `\2`). -/
def matchQuoted (sameClose : Bool) : List Char → Option (Char × List Char × List Char)
  | [] => none
  | q :: rest =>
    if isQuoteChar q then
      let spec := rest.takeWhile (fun c => !(isQuoteChar c))
      let rest2 := rest.drop spec.length
      match rest2 with
      | q2 :: rest3 =>
        if spec.isEmpty then none
        else if sameClose then
          if q2 = q then some (q, spec, rest3) else none
        else if isQuoteChar q2 then some (q, spec, rest3) else none
      | [] => none
    else none

/-- Legality of the text between the keyword and the quote for the
`(?:[\w*{}\s,]+\s+from\s+)` clause group: it must end in whitespace, the word
before that trailing whitespace must be `from`, itself preceded by whitespace,
with (for the `import` form, where the whole group is optional but `from`
appears only inside it) at least one clause character before that. -/
def checkFromMiddle (needClause : Bool) (m : List Char) : Bool :=
  let r := m.reverse
  let t := r.takeWhile isWsChar
  if t.isEmpty then false
  else
    let m1 := (r.drop t.length).reverse
    if listSuffixOfC "from".data m1 then
      let p := m1.take (m1.length - 4)
      match p, p.reverse with
      | ph :: _, pl :: _ =>
        isWsChar ph && isWsChar pl && (!needClause || decide (3 ≤ p.length))
      | _, _ => false
    else false

structure ImportMatch where
  pre : List Char
  quote : Char
  spec : List Char
  rest : List Char

/-- Match `import\s+(?:[\w*{}\s,]+\s+from\s+)?['"]…` at the head of `cs`. -/
def matchImportAt (sameClose : Bool) (cs : List Char) : Option ImportMatch :=
  if startsWithChars cs "import" then
    let cs1 := cs.drop 6
    let ws := cs1.takeWhile isWsChar
    if ws.isEmpty then none
    else
      let cs2 := cs1.drop ws.length
      match matchQuoted sameClose cs2 with
      | some (q, spec, rest) => some ⟨"import".data ++ ws, q, spec, rest⟩
      | none =>
        let run := cs1.takeWhile isClassChar
        let cs3 := cs1.drop run.length
        if checkFromMiddle true run then
          match matchQuoted sameClose cs3 with
          | some (q, spec, rest) => some ⟨"import".data ++ run, q, spec, rest⟩
          | none => none
        else none
  else none

/-- Match `export\s+(?:[\w*{}\s,]+\s+)?from\s+['"]…` at the head of `cs`. -/
def matchExportAt (sameClose : Bool) (cs : List Char) : Option ImportMatch :=
  if startsWithChars cs "export" then
    let cs1 := cs.drop 6
    let run := cs1.takeWhile isClassChar
    let cs2 := cs1.drop run.length
    if checkFromMiddle false run then
      match matchQuoted sameClose cs2 with
      | some (q, spec, rest) => some ⟨"export".data ++ run, q, spec, rest⟩
      | none => none
    else none
  else none

/-- Match the dynamic-import regex `import\s*\(\s*['"]([^'"]+)['"]\s*\)`. -/
def matchDynImportAt (cs : List Char) : Option (List Char × List Char) :=
  if startsWithChars cs "import" then
    let cs1 := cs.drop 6
    let cs2 := cs1.drop (cs1.takeWhile isWsChar).length
    match cs2 with
    | c :: cs3 =>
      if c = '(' then
        let cs4 := cs3.drop (cs3.takeWhile isWsChar).length
        match matchQuoted false cs4 with
        | some (_, spec, rest) =>
          let rest2 := rest.drop (rest.takeWhile isWsChar).length
          match rest2 with
          | d :: rest3 => if d = ')' then some (spec, rest3) else none
          | [] => none
        | none => none
      else none
    | [] => none
  else none

/-- Global regex scan: leftmost match, then continue after the match end. -/
def scanMatches (matcher : List Char → Option (List Char × List Char)) :
    Nat → List Char → List String
  | 0, _ => []
  | _ + 1, [] => []
  | fuel + 1, c :: rest =>
    match matcher (c :: rest) with
    | some (spec, after) => String.mk spec :: scanMatches matcher fuel after
    | none => scanMatches matcher fuel rest

/-- `parseImports`: the three regex scans (static import, dynamic import,
export-from), concatenated then de-duplicated preserving first occurrence. -/
def parseImports (code : String) : List String :=
  let cs := code.data
  let n := cs.length
  let l1 := scanMatches
    (fun c => (matchImportAt false c).map (fun r => (r.spec, r.rest))) n cs
  let l2 := scanMatches matchDynImportAt n cs
  let l3 := scanMatches
    (fun c => (matchExportAt false c).map (fun r => (r.spec, r.rest))) n cs
  dedupFirst (l1 ++ l2 ++ l3)

/-! ## Import rewriting (bundler.ts) -/

def countCommon : List String → List String → Nat
  | a :: as, b :: bs => if a = b then countCommon as bs + 1 else 0
  | _, _ => 0

def repeatStr : Nat → String → String
  | 0, _ => ""
  | n + 1, s => s ++ repeatStr n s

/-- `calculateRelativePath`: longest common directory prefix, one `../` per
remaining `from` segment, then the remaining `to` segments. -/
def calculateRelativePath (fromP toP : String) : String :=
  let fromDir := getDirectory fromP
  let toDir := getDirectory toP
  let toFile := ((splitOnChar '/' toP).getLast?).getD toP
  if fromDir = toDir then "./" ++ toFile
  else
    let fromParts := if fromDir = "" then [] else splitOnChar '/' fromDir
    let toParts := if toDir = "" then [] else splitOnChar '/' toDir
    let commonLength := countCommon fromParts toParts
    let upCount := fromParts.length - commonLength
    let downParts := toParts.drop commonLength
    let rel1 := if upCount = 0 then "./" else repeatStr upCount "../"
    let rel2 :=
      if downParts.length > 0 then rel1 ++ strJoin "/" downParts ++ "/" else rel1
    rel2 ++ toFile

/-- `externals.includes(s) || externals.some(e => s.startsWith(e + "/"))`. -/
def specIsExternal (externals : List String) (s : String) : Bool :=
  listContains externals s || externals.any (fun e => strStartsWith s (e ++ "/"))

/-- The replacement callback of `rewriteImports`: `none` keeps the original
specifier text. -/
def rewriteCallback (files : Files) (pathMap : List (String × String))
    (externals : List String) (importer importerOutputPath : String)
    (spec : String) : Option String :=
  if specIsExternal externals spec then none
  else if !(strStartsWith spec "." || strStartsWith spec "/") then
    match resolveModuleD spec files importer with
    | .error _ => none
    | .ok r =>
      if r.external then none
      else
        let resolvedOutputPath := (lookupStr pathMap r.path).getD r.path
        if strStartsWith r.path "node_modules/" then some ("/" ++ resolvedOutputPath)
        else some (calculateRelativePath importerOutputPath resolvedOutputPath)
  else
    match resolveModuleD spec files importer with
    | .error _ => none
    | .ok r =>
      if r.external then none
      else
        let resolvedOutputPath := (lookupStr pathMap r.path).getD r.path
        some (calculateRelativePath importerOutputPath resolvedOutputPath)

/-- `code.replace(importExportRegex, …)`: scan left to right, substituting
the specifier of every match of the combined import/export regex. -/
def rewriteScan (cb : String → Option String) :
    Nat → List Char → List Char
  | 0, cs => cs
  | _ + 1, [] => []
  | fuel + 1, c :: rest =>
    let attempt :=
      match matchImportAt true (c :: rest) with
      | some r => some r
      | none => matchExportAt true (c :: rest)
    match attempt with
    | some r =>
      let newSpec :=
        match cb (String.mk r.spec) with
        | some ns => ns.data
        | none => r.spec
      r.pre ++ [r.quote] ++ newSpec ++ [r.quote] ++ rewriteScan cb fuel r.rest
    | none => c :: rewriteScan cb fuel rest

/-- `rewriteImports`. -/
def rewriteImports (code : String) (importer : String) (files : Files)
    (pathMap : List (String × String)) (externals : List String) : String :=
  let importerOutputPath := (lookupStr pathMap importer).getD importer
  String.mk (rewriteScan
    (rewriteCallback files pathMap externals importer importerOutputPath)
    code.data.length code.data)

/-! ## transformAndResolve (bundler.ts transform-only mode) -/

/-- An output module: plain code text, structured JSON, or verbatim text. -/
inductive ModValue where
  | code : String → ModValue
  | json : Json → ModValue
  | text : String → ModValue

structure DiscoverState where
  modules : List (String × ModValue)
  warnings : List String
  processed : List String
  pathMap : List (String × String)

/-- The discovery work-list loop (first pass of `transformAndResolve`):
pop, mark visited, classify non-code files, parse imports, resolve each one
(per-import failures become warnings), push unvisited internal targets. -/
def discoverLoop (files : Files) (externals : List String) :
    Nat → List String → DiscoverState → DiscoverState
  | 0, _, st => st
  | _ + 1, [], st => st
  | fuel + 1, filePath :: stack, st0 =>
    if listContains st0.processed filePath then
      discoverLoop files externals fuel stack st0
    else
      let st := { st0 with processed := st0.processed ++ [filePath] }
      match lookupStr files filePath with
      | none =>
        discoverLoop files externals fuel stack
          { st with warnings := st.warnings ++ ["File not found: " ++ filePath] }
      | some content =>
        let outputPath :=
          if isTypeScriptFile filePath then getOutputPath filePath else filePath
        let st := { st with pathMap := st.pathMap ++ [(filePath, outputPath)] }
        if !isJavaScriptFile filePath then
          if strEndsWith filePath ".json" then
            match jsonParse content with
            | some j =>
              discoverLoop files externals fuel stack
                { st with modules := st.modules ++ [(filePath, .json j)] }
            | none =>
              discoverLoop files externals fuel stack
                { st with warnings :=
                    st.warnings ++ ["Failed to parse JSON file: " ++ filePath] }
          else
            discoverLoop files externals fuel stack
              { st with modules := st.modules ++ [(filePath, .text content)] }
        else
          let imports := parseImports content
          let acc := imports.foldl
            (fun (acc : List String × List String) specifier =>
              if specIsExternal externals specifier then acc
              else
                match resolveModuleD specifier files filePath with
                | .ok r =>
                  if !r.external && !(listContains st.processed r.path) then
                    (acc.1 ++ [r.path], acc.2)
                  else acc
                | .error msg =>
                  (acc.1, acc.2 ++
                    ["Failed to resolve " ++ sqStr ++ specifier ++ sqStr ++
                      " from " ++ filePath ++ ": " ++ msg]))
            ([], [])
          discoverLoop files externals fuel (acc.1.reverse ++ stack)
            { st with warnings := st.warnings ++ acc.2 }

/-- The transform/rewrite pass (second pass): the external Sucrase
transformer is the black-box parameter `tr` (per its contract it never
mutates import specifiers; its throw-on-error path is not modeled). -/
def transformPass (tr : String → String → String) (files : Files)
    (externals : List String) (pathMap : List (String × String))
    (modules0 : List (String × ModValue)) : List (String × ModValue) :=
  pathMap.foldl
    (fun mods entry =>
      let sourcePath := entry.1
      let outputPath := entry.2
      match lookupStr files sourcePath with
      | none => mods
      | some content =>
        if !isJavaScriptFile sourcePath then mods
        else
          let t1 := if isTypeScriptFile sourcePath then tr sourcePath content
                    else content
          let t2 := rewriteImports t1 sourcePath files pathMap externals
          setAssoc mods outputPath (.code t2))
    modules0

structure TransformAndResolveResult where
  mainModule : String
  modules : List (String × ModValue)
  warnings : List String
  pathMap : List (String × String)

/-- `transformAndResolve`: discovery then transform/rewrite; the entry's
output path becomes the main module. -/
def transformAndResolveModel (tr : String → String → String) (files : Files)
    (entryPoint : String) (externals : List String) (fuel : Nat) :
    TransformAndResolveResult :=
  let st := discoverLoop files externals fuel [entryPoint]
    { modules := [], warnings := [], processed := [], pathMap := [] }
  let mods := transformPass tr files externals st.pathMap st.modules
  { mainModule :=
      if isTypeScriptFile entryPoint then getOutputPath entryPoint else entryPoint,
    modules := mods, warnings := st.warnings, pathMap := st.pathMap }

/-! ## Theorems: C6 and C8 -/

def c6Files : Files :=
  [("src/index.ts", "import \x27./missing\x27;\nimport \x7bg\x7d from \x27./other\x27;"),
   ("src/other.ts", "export function g()\x7b\x7d")]

/-- C6: For every relative specifier with no matching candidate in the file
set, `resolveModule` raises an error; and during graph discovery that error
is caught per-import: a warning naming the specifier and the importer is
recorded and discovery continues over the remaining work-list, producing a
complete result (here, the unaffected sibling import is still discovered,
transformed and emitted). -/
theorem c6_relative_unresolved_warns_and_continues :
    (∀ (specifier importer : String) (files : Files) (conds exts : List String),
      (strStartsWith specifier "." = true ∨ strStartsWith specifier "/" = true) →
      resolveRelative specifier importer files exts = none →
      resolveModule specifier files importer conds exts =
        .error (relativeErrMsg specifier importer)) ∧
    (transformAndResolveModel (fun _ c => c) c6Files "src/index.ts" [] 8).warnings =
      ["Failed to resolve " ++ sqStr ++ "./missing" ++ sqStr ++
        " from src/index.ts: " ++ relativeErrMsg "./missing" "src/index.ts"] ∧
    (transformAndResolveModel (fun _ c => c) c6Files "src/index.ts" [] 8).pathMap =
      [("src/index.ts", "src/index.js"), ("src/other.ts", "src/other.js")] ∧
    (lookupStr (transformAndResolveModel (fun _ c => c) c6Files "src/index.ts" [] 8).modules
      "src/other.js").isSome = true := by
  refine ⟨?_, rfl, rfl, rfl⟩
  intro specifier importer files conds exts hrel hnone
  unfold resolveModule
  have hcond : (strStartsWith specifier "." || strStartsWith specifier "/") = true := by
    rcases hrel with h | h <;> simp [h]
  rw [if_pos hcond, hnone]

/-- Witness for C6 at the concrete failing import. -/
theorem c6_relative_unresolved_warns_and_continues_witness :
    resolveModule "./missing" c6Files "src/index.ts" defaultConditions
        DEFAULT_EXTENSIONS =
      .error (relativeErrMsg "./missing" "src/index.ts") :=
  c6_relative_unresolved_warns_and_continues.1 "./missing" "src/index.ts" c6Files
    defaultConditions DEFAULT_EXTENSIONS (Or.inl (by decide)) (by rfl)

def c8Files : Files :=
  [("src/index.ts", "import \x7bh\x7d from \x27./utils\x27;"),
   ("src/utils.ts", "export function h()\x7b\x7d")]

/-- C8: Rewrite round-trip for the two-file input in transform-only mode:
the entry's output module contains the rewritten specifier `./utils.js`,
and resolving that specifier as a relative import against the entry's own
output path over the produced output map yields exactly the output path
recorded for `src/utils.ts`. -/
theorem c8_rewrite_round_trip :
    (transformAndResolveModel (fun _ c => c) c8Files "src/index.ts" [] 8).mainModule =
      "src/index.js" ∧
    (match lookupStr (transformAndResolveModel (fun _ c => c) c8Files
        "src/index.ts" [] 8).modules "src/index.js" with
      | some (.code t) => parseImports t
      | _ => []) = ["./utils.js"] ∧
    resolveRelative "./utils.js" "src/index.js"
        ((transformAndResolveModel (fun _ c => c) c8Files "src/index.ts" [] 8).modules.map
          (fun kv => (kv.1, ""))) DEFAULT_EXTENSIONS =
      lookupStr (transformAndResolveModel (fun _ c => c) c8Files
        "src/index.ts" [] 8).pathMap "src/utils.ts" ∧
    lookupStr (transformAndResolveModel (fun _ c => c) c8Files
        "src/index.ts" [] 8).pathMap "src/utils.ts" = some "src/utils.js" :=
  ⟨rfl, rfl, rfl, rfl⟩

/-! ## The concurrent installer of workers-builder (installer.ts)

`installPackage` tasks interleave only at their `await` points.  Each task is
modeled by a program counter at its suspension points:

* `start`     — before the ledger check (installer.ts:161-169);
* `metaWait`  — registered in `inProgress`, awaiting `fetchPackageMetadata`
  (the ledger check, the start of the install IIFE up to its first await, and
  `inProgress.set` all run synchronously, installer.ts:166-217);
* `filesWait` — version resolved and committed to `installedPackages`,
  awaiting `fetchPackageFiles` (installer.ts:192-196);
* `bodyDone`  — files written and dependency tasks spawned, the install body
  finished (the await of `Promise.all` is merged into this point, which only
  adds interleavings);
* `finished`  — after the `finally` removed the name from `inProgress`.
-/

inductive Pc where
  | start
  | metaWait
  | filesWait
  | bodyDone
  | finished
deriving DecidableEq, Repr

/-- A task is the pending call `installPackage(name, versionRange, …)`. -/
abbrev MTask := String × String × Pc

structure MState where
  tasks : List MTask
  installedPackages : List (String × String)
  inFlight : List String
  installedList : List String
  files : Files
deriving DecidableEq, Repr

/-- Metadata fetch + version resolution + version-map lookup, the part of a
task between its registration and its commit. -/
def metaLookup (reg : Registry) (n rg : String) : Option (String × VersionMeta) :=
  match lookupStr reg n with
  | none => none
  | some meta =>
    match resolveVersion rg meta with
    | none => none
    | some v =>
      match lookupStr meta.versions v with
      | none => none
      | some vm => some (v, vm)

/-- Write the extracted tarball members under the package's prefix. -/
def writePkgFiles (n : String) (tarFiles : List (String × String)) (fs : Files) :
    Files :=
  tarFiles.foldl (fun acc pc => setKey acc ("node_modules/" ++ n ++ "/" ++ pc.1) pc.2) fs

/-- One scheduler step of the interleaved install tasks. -/
inductive Step (reg : Registry) : MState → MState → Prop
  | startInstalled {s : MState} {before after : List MTask} {n rg : String}
      (h : s.tasks = before ++ (n, rg, Pc.start) :: after)
      (h1 : (lookupStr s.installedPackages n).isSome = true) :
      Step reg s { s with tasks := before ++ (n, rg, Pc.finished) :: after }
  | startInFlight {s : MState} {before after : List MTask} {n rg : String}
      (h : s.tasks = before ++ (n, rg, Pc.start) :: after)
      (h1 : lookupStr s.installedPackages n = none)
      (h2 : n ∈ s.inFlight) :
      Step reg s { s with tasks := before ++ (n, rg, Pc.finished) :: after }
  | register {s : MState} {before after : List MTask} {n rg : String}
      (h : s.tasks = before ++ (n, rg, Pc.start) :: after)
      (h1 : lookupStr s.installedPackages n = none)
      (h2 : n ∉ s.inFlight) :
      Step reg s { s with tasks := before ++ (n, rg, Pc.metaWait) :: after,
                          inFlight := n :: s.inFlight }
  | commit {s : MState} {before after : List MTask} {n rg v : String}
      {vm : VersionMeta}
      (h : s.tasks = before ++ (n, rg, Pc.metaWait) :: after)
      (h1 : metaLookup reg n rg = some (v, vm)) :
      Step reg s { s with tasks := before ++ (n, rg, Pc.filesWait) :: after,
                          installedPackages := s.installedPackages ++ [(n, v)],
                          installedList := s.installedList ++ [n ++ "@" ++ v] }
  | metaFail {s : MState} {before after : List MTask} {n rg : String}
      (h : s.tasks = before ++ (n, rg, Pc.metaWait) :: after)
      (h1 : metaLookup reg n rg = none) :
      Step reg s { s with tasks := before ++ (n, rg, Pc.bodyDone) :: after }
  | filesOk {s : MState} {before after : List MTask} {n rg v : String}
      {vm : VersionMeta} {tarFiles : List (String × String)}
      (h : s.tasks = before ++ (n, rg, Pc.filesWait) :: after)
      (h1 : metaLookup reg n rg = some (v, vm))
      (h2 : vm.dist = some tarFiles) :
      Step reg s { s with
        tasks := (before ++ (n, rg, Pc.bodyDone) :: after) ++
          vm.dependencies.map (fun d => (d.1, d.2, Pc.start)),
        files := writePkgFiles n tarFiles s.files }
  | filesFail {s : MState} {before after : List MTask} {n rg v : String}
      {vm : VersionMeta}
      (h : s.tasks = before ++ (n, rg, Pc.filesWait) :: after)
      (h1 : metaLookup reg n rg = some (v, vm))
      (h2 : vm.dist = none) :
      Step reg s { s with tasks := before ++ (n, rg, Pc.bodyDone) :: after }
  | finishTask {s : MState} {before after : List MTask} {n rg : String}
      (h : s.tasks = before ++ (n, rg, Pc.bodyDone) :: after) :
      Step reg s { s with tasks := before ++ (n, rg, Pc.finished) :: after,
                          inFlight := s.inFlight.erase n }

/-- `installDependencies` start state: one task per root dependency, empty
ledger, and the shallow copy of the input file set. -/
def mkInit (rootDeps : List (String × String)) (files : Files) : MState :=
  { tasks := rootDeps.map (fun d => (d.1, d.2, Pc.start)),
    installedPackages := [], inFlight := [], installedList := [], files := files }

/-- Reachability of a ledger/file state from a start state by interleaving. -/
def ReachableM (reg : Registry) (s0 s : MState) : Prop :=
  Relation.ReflTransGen (Step reg) s0 s

/-! ## C1: the ledger overlap -/

def c1Reg : Registry :=
  [("x", { distTags := [],
           versions := [("1.0.0", ⟨[], some [("index.js", "m")]⟩)] })]

def c1Init : MState := mkInit [("x", "1.0.0")] []

def c1S1 : MState :=
  { tasks := [("x", "1.0.0", Pc.metaWait)], installedPackages := [],
    inFlight := ["x"], installedList := [], files := [] }

def c1S2 : MState :=
  { tasks := [("x", "1.0.0", Pc.filesWait)],
    installedPackages := [("x", "1.0.0")], inFlight := ["x"],
    installedList := ["x@1.0.0"], files := [] }

/-- C1 counterexample: a reachable ledger state in which the name `x` is a
key of `installedPackages` while simultaneously a key of `inProgress` — the
task commits the name (installer.ts:192) while its in-flight entry is removed
only in the `finally` after the whole task body (installer.ts:222), so during
the tarball fetch the name is in both maps, refuting the disjointness claim. -/
theorem c1_counterexample_committed_while_inflight :
    ∃ s : MState, ReachableM c1Reg c1Init s ∧
      (lookupStr s.installedPackages "x").isSome = true ∧ "x" ∈ s.inFlight := by
  have h1 : Step c1Reg c1Init c1S1 :=
    @Step.register c1Reg c1Init [] [] "x" "1.0.0" rfl rfl (by decide)
  have h2 : Step c1Reg c1S1 c1S2 :=
    @Step.commit c1Reg c1S1 [] [] "x" "1.0.0" "1.0.0" ⟨[], some [("index.js", "m")]⟩ rfl rfl
  exact ⟨c1S2,
    Relation.ReflTransGen.tail (Relation.ReflTransGen.single h1) h2,
    by decide, by decide⟩

/-! ## C5: the overwrite of a pre-existing node_modules entry -/

def c5Reg : Registry :=
  [("x", { distTags := [],
           versions := [("1.0.0", ⟨[], some [("index.js", "new")]⟩)] })]

def c5Init : MState := mkInit [("x", "1.0.0")] [("node_modules/x/index.js", "old")]

def c5S1 : MState :=
  { tasks := [("x", "1.0.0", Pc.metaWait)], installedPackages := [],
    inFlight := ["x"], installedList := [],
    files := [("node_modules/x/index.js", "old")] }

def c5S2 : MState :=
  { tasks := [("x", "1.0.0", Pc.filesWait)],
    installedPackages := [("x", "1.0.0")], inFlight := ["x"],
    installedList := ["x@1.0.0"], files := [("node_modules/x/index.js", "old")] }

def c5S3 : MState :=
  { tasks := [("x", "1.0.0", Pc.bodyDone)],
    installedPackages := [("x", "1.0.0")], inFlight := ["x"],
    installedList := ["x@1.0.0"], files := [("node_modules/x/index.js", "new")] }

/-- C5 counterexample: when the input file set already contains an entry
under the installed package's `node_modules` prefix, installation overwrites
it (installer.ts:199-201 assigns unconditionally), refuting the claim that
existing entries are never overwritten. -/
theorem c5_counterexample_overwrites_input_entry :
    ∃ s : MState, ReachableM c5Reg c5Init s ∧
      lookupStr c5Init.files "node_modules/x/index.js" = some "old" ∧
      lookupStr s.files "node_modules/x/index.js" = some "new" := by
  have h1 : Step c5Reg c5Init c5S1 :=
    @Step.register c5Reg c5Init [] [] "x" "1.0.0" rfl rfl (by decide)
  have h2 : Step c5Reg c5S1 c5S2 :=
    @Step.commit c5Reg c5S1 [] [] "x" "1.0.0" "1.0.0" ⟨[], some [("index.js", "new")]⟩ rfl rfl
  have h3 : Step c5Reg c5S2 c5S3 :=
    @Step.filesOk c5Reg c5S2 [] [] "x" "1.0.0" "1.0.0" ⟨[], some [("index.js", "new")]⟩
      [("index.js", "new")] rfl rfl rfl
  exact ⟨c5S3,
    Relation.ReflTransGen.tail
      (Relation.ReflTransGen.tail (Relation.ReflTransGen.single h1) h2) h3,
    by decide, by decide⟩

/-! ## Ledger invariants of the concurrent installer -/

/-- A task is active while it holds its `inProgress` registration: from the
registration up to the `finally` that deletes it. -/
def TaskActive : Pc → Bool
  | .metaWait => true
  | .filesWait => true
  | .bodyDone => true
  | _ => false

/-- Two distinct concurrently active tasks never share a name. -/
def RTask (t u : MTask) : Prop :=
  TaskActive t.2.2 = true → TaskActive u.2.2 = true → t.1 ≠ u.1

/-- The inductive ledger invariant: active tasks are registered, active
names are unique, registered-but-uncommitted tasks have uninstalled names,
and both maps are duplicate-free. -/
def MInv (s : MState) : Prop :=
  (∀ t ∈ s.tasks, TaskActive t.2.2 = true → t.1 ∈ s.inFlight) ∧
  s.tasks.Pairwise RTask ∧
  (∀ t ∈ s.tasks, t.2.2 = Pc.metaWait → lookupStr s.installedPackages t.1 = none) ∧
  s.inFlight.Nodup ∧
  (s.installedPackages.map Prod.fst).Nodup

theorem lookupStr_append {α : Type} (l1 l2 : List (String × α)) (k : String) :
    lookupStr (l1 ++ l2) k =
      (match lookupStr l1 k with
       | some v => some v
       | none => lookupStr l2 k) := by
  induction l1 with
  | nil => simp [lookupStr]
  | cons hd tl ih =>
    by_cases h : hd.1 = k
    · simp [lookupStr, h]
    · simp [lookupStr, h, ih]

theorem lookupStr_eq_none_iff {α : Type} (l : List (String × α)) (k : String) :
    lookupStr l k = none ↔ k ∉ l.map Prod.fst := by
  induction l with
  | nil => simp [lookupStr]
  | cons hd tl ih =>
    rw [List.map_cons, List.mem_cons]
    by_cases h : hd.1 = k
    · simp only [lookupStr, if_pos h]
      constructor
      · intro hno; exact absurd hno (by simp)
      · intro hnmem; exact absurd (Or.inl h.symm) hnmem
    · simp only [lookupStr, if_neg h]
      constructor
      · intro hnone hmem
        rcases hmem with heq | hmem2
        · exact h heq.symm
        · exact (ih.mp hnone) hmem2
      · intro hnmem
        exact ih.mpr (fun hm => hnmem (Or.inr hm))

theorem lookupStr_isSome_of_append_self {α : Type} (l : List (String × α))
    (k : String) (v : α) :
    (lookupStr (l ++ [(k, v)]) k).isSome = true := by
  rw [lookupStr_append]
  cases h : lookupStr l k with
  | none => simp [lookupStr]
  | some w => simp

theorem lookupStr_append_isSome_mono {α : Type} (l l2 : List (String × α))
    (k : String) (h : (lookupStr l k).isSome = true) :
    (lookupStr (l ++ l2) k).isSome = true := by
  rw [lookupStr_append]
  cases hh : lookupStr l k with
  | none => rw [hh] at h; simp at h
  | some w => simp

/-- Pairwise for a list of inactive tasks is vacuous. -/
theorem pairwise_of_inactive (l : List MTask)
    (h : ∀ t ∈ l, TaskActive t.2.2 = false) : l.Pairwise RTask := by
  induction l with
  | nil => exact List.Pairwise.nil
  | cons hd tl ih =>
    refine List.Pairwise.cons ?_ (ih (fun t ht => h t (List.mem_cons_of_mem hd ht)))
    intro u _ hact
    rw [h hd (List.mem_cons_self hd tl)] at hact
    exact absurd hact (by simp)

/-- From the pairwise invariant: every other task's name differs from the
middle task's name whenever both are active. -/
theorem pairwise_others_ne {before after : List MTask} {told : MTask}
    (hp : (before ++ told :: after).Pairwise RTask) :
    ∀ u ∈ before ++ after, TaskActive u.2.2 = true →
      TaskActive told.2.2 = true → u.1 ≠ told.1 := by
  rw [List.pairwise_append] at hp
  obtain ⟨pb, pca, cross⟩ := hp
  rw [List.pairwise_cons] at pca
  obtain ⟨hta, pa⟩ := pca
  intro u hu hau hat
  rcases List.mem_append.mp hu with hub | hua
  · exact cross u hub told (List.mem_cons_self told after) hau hat
  · exact (hta u hua hat hau).symm

/-- Replacing the middle task preserves the pairwise invariant provided the
new task is name-distinct from every other active task. -/
theorem pairwise_middle {before after : List MTask} {told tnew : MTask}
    (hp : (before ++ told :: after).Pairwise RTask)
    (hnew : ∀ u ∈ before ++ after, TaskActive u.2.2 = true →
      TaskActive tnew.2.2 = true → u.1 ≠ tnew.1) :
    (before ++ tnew :: after).Pairwise RTask := by
  rw [List.pairwise_append] at hp ⊢
  obtain ⟨pb, pca, cross⟩ := hp
  rw [List.pairwise_cons] at pca
  obtain ⟨_, pa⟩ := pca
  refine ⟨pb, ?_, ?_⟩
  · rw [List.pairwise_cons]
    refine ⟨?_, pa⟩
    intro u hu hat hau
    exact (hnew u (List.mem_append.mpr (Or.inr hu)) hau hat).symm
  · intro a ha b hb
    rcases List.mem_cons.mp hb with rfl | hb2
    · intro haa hab
      exact hnew a (List.mem_append.mpr (Or.inl ha)) haa hab
    · exact cross a ha b (List.mem_cons_of_mem told hb2)

theorem mem_mid_cases {l1 l2 : List MTask} {x t : MTask} (ht : t ∈ l1 ++ x :: l2) :
    t ∈ l1 ++ l2 ∨ t = x := by
  rcases List.mem_append.mp ht with hb | hc
  · exact Or.inl (List.mem_append.mpr (Or.inl hb))
  · rcases List.mem_cons.mp hc with rfl | ha
    · exact Or.inr rfl
    · exact Or.inl (List.mem_append.mpr (Or.inr ha))

theorem mem_of_mid {l1 l2 : List MTask} (x : MTask) {t : MTask}
    (ht : t ∈ l1 ++ l2) : t ∈ l1 ++ x :: l2 := by
  rcases List.mem_append.mp ht with hb | ha
  · exact List.mem_append.mpr (Or.inl hb)
  · exact List.mem_append.mpr (Or.inr (List.mem_cons_of_mem x ha))

theorem mem_mid_self (l1 l2 : List MTask) (x : MTask) : x ∈ l1 ++ x :: l2 :=
  List.mem_append.mpr (Or.inr (List.mem_cons_self x l2))

theorem spawned_inactive (deps : List (String × String)) :
    ∀ t ∈ deps.map (fun d => (d.1, d.2, Pc.start)), TaskActive t.2.2 = false := by
  intro t ht
  obtain ⟨d, _, rfl⟩ := List.mem_map.mp ht
  rfl

/-- Preservation of the ledger invariant by every scheduler step. -/
theorem minv_step {reg : Registry} {s s' : MState} (hs : MInv s)
    (st : Step reg s s') : MInv s' := by
  obtain ⟨inv1, inv2, inv3, inv4, inv5⟩ := hs
  cases st with
  | @startInstalled before after n rg h h1 =>
    rw [h] at inv1 inv2 inv3
    refine ⟨?_, ?_, ?_, inv4, inv5⟩
    · intro t ht hact
      rcases mem_mid_cases ht with hin | rfl
      · exact inv1 t (mem_of_mid _ hin) hact
      · exact absurd hact (by simp [TaskActive])
    · exact pairwise_middle inv2 (fun u hu hau hat => absurd hat (by simp [TaskActive]))
    · intro t ht hmw
      rcases mem_mid_cases ht with hin | rfl
      · exact inv3 t (mem_of_mid _ hin) hmw
      · exact absurd hmw (by simp)
  | @startInFlight before after n rg h h1 h2 =>
    rw [h] at inv1 inv2 inv3
    refine ⟨?_, ?_, ?_, inv4, inv5⟩
    · intro t ht hact
      rcases mem_mid_cases ht with hin | rfl
      · exact inv1 t (mem_of_mid _ hin) hact
      · exact absurd hact (by simp [TaskActive])
    · exact pairwise_middle inv2 (fun u hu hau hat => absurd hat (by simp [TaskActive]))
    · intro t ht hmw
      rcases mem_mid_cases ht with hin | rfl
      · exact inv3 t (mem_of_mid _ hin) hmw
      · exact absurd hmw (by simp)
  | @register before after n rg h h1 h2 =>
    rw [h] at inv1 inv2 inv3
    refine ⟨?_, ?_, ?_, ?_, inv5⟩
    · intro t ht hact
      rcases mem_mid_cases ht with hin | rfl
      · exact List.mem_cons_of_mem n (inv1 t (mem_of_mid _ hin) hact)
      · exact List.mem_cons_self n s.inFlight
    · refine pairwise_middle inv2 ?_
      intro u hu hau _
      intro heq
      have heq2 : u.1 = n := heq
      have hmem := inv1 u (mem_of_mid _ hu) hau
      rw [heq2] at hmem
      exact h2 hmem
    · intro t ht hmw
      rcases mem_mid_cases ht with hin | rfl
      · exact inv3 t (mem_of_mid _ hin) hmw
      · exact h1
    · exact List.nodup_cons.mpr ⟨h2, inv4⟩
  | @commit before after n rg v vm h h1 =>
    rw [h] at inv1 inv2 inv3
    have hmw_told : TaskActive (Pc.metaWait) = true := rfl
    have hn_none : lookupStr s.installedPackages n =
        none := inv3 (n, rg, Pc.metaWait) (mem_mid_self before after _) rfl
    refine ⟨?_, ?_, ?_, inv4, ?_⟩
    · intro t ht hact
      rcases mem_mid_cases ht with hin | rfl
      · exact inv1 t (mem_of_mid _ hin) hact
      · exact inv1 (n, rg, Pc.metaWait) (mem_mid_self before after _) rfl
    · refine pairwise_middle inv2 ?_
      intro u hu hau _
      exact pairwise_others_ne inv2 u hu hau rfl
    · intro t ht hmw
      rcases mem_mid_cases ht with hin | rfl
      · have hold := inv3 t (mem_of_mid _ hin) hmw
        have hne : t.1 ≠ n :=
          pairwise_others_ne inv2 t hin (by rw [hmw]; rfl) rfl
        rw [lookupStr_append, hold]
        simp only [lookupStr]
        rw [if_neg (fun heq => hne heq.symm)]
      · exact absurd hmw (by simp)
    · rw [List.map_append]
      simp only [List.map_cons, List.map_nil]
      rw [List.nodup_append]
      refine ⟨inv5, List.nodup_singleton n, ?_⟩
      intro a ha hb
      rcases List.mem_singleton.mp hb with rfl
      exact (lookupStr_eq_none_iff s.installedPackages a).mp hn_none ha
  | @metaFail before after n rg h h1 =>
    rw [h] at inv1 inv2 inv3
    refine ⟨?_, ?_, ?_, inv4, inv5⟩
    · intro t ht hact
      rcases mem_mid_cases ht with hin | rfl
      · exact inv1 t (mem_of_mid _ hin) hact
      · exact inv1 (n, rg, Pc.metaWait) (mem_mid_self before after _) rfl
    · refine pairwise_middle inv2 ?_
      intro u hu hau _
      exact pairwise_others_ne inv2 u hu hau rfl
    · intro t ht hmw
      rcases mem_mid_cases ht with hin | rfl
      · exact inv3 t (mem_of_mid _ hin) hmw
      · exact absurd hmw (by simp)
  | @filesOk before after n rg v vm tarFiles h h1 h2 =>
    rw [h] at inv1 inv2 inv3
    refine ⟨?_, ?_, ?_, inv4, inv5⟩
    · intro t ht hact
      rcases List.mem_append.mp ht with hmid | hsp
      · rcases mem_mid_cases hmid with hin | rfl
        · exact inv1 t (mem_of_mid _ hin) hact
        · exact inv1 (n, rg, Pc.filesWait) (mem_mid_self before after _) rfl
      · rw [spawned_inactive _ t hsp] at hact
        exact absurd hact (by simp)
    · rw [List.pairwise_append]
      refine ⟨?_, pairwise_of_inactive _ (spawned_inactive _), ?_⟩
      · refine pairwise_middle inv2 ?_
        intro u hu hau _
        exact pairwise_others_ne inv2 u hu hau rfl
      · intro a _ b hb _ hbact
        rw [spawned_inactive _ b hb] at hbact
        exact absurd hbact (by simp)
    · intro t ht hmw
      rcases List.mem_append.mp ht with hmid | hsp
      · rcases mem_mid_cases hmid with hin | rfl
        · exact inv3 t (mem_of_mid _ hin) hmw
        · exact absurd hmw (by simp)
      · obtain ⟨d, _, rfl⟩ := List.mem_map.mp hsp
        exact absurd hmw (by simp)
  | @filesFail before after n rg v vm h h1 h2 =>
    rw [h] at inv1 inv2 inv3
    refine ⟨?_, ?_, ?_, inv4, inv5⟩
    · intro t ht hact
      rcases mem_mid_cases ht with hin | rfl
      · exact inv1 t (mem_of_mid _ hin) hact
      · exact inv1 (n, rg, Pc.filesWait) (mem_mid_self before after _) rfl
    · refine pairwise_middle inv2 ?_
      intro u hu hau _
      exact pairwise_others_ne inv2 u hu hau rfl
    · intro t ht hmw
      rcases mem_mid_cases ht with hin | rfl
      · exact inv3 t (mem_of_mid _ hin) hmw
      · exact absurd hmw (by simp)
  | @finishTask before after n rg h =>
    rw [h] at inv1 inv2 inv3
    refine ⟨?_, ?_, ?_, List.Nodup.erase n inv4, inv5⟩
    · intro t ht hact
      rcases mem_mid_cases ht with hin | rfl
      · have hne : t.1 ≠ n := pairwise_others_ne inv2 t hin hact rfl
        exact (List.mem_erase_of_ne hne).mpr (inv1 t (mem_of_mid _ hin) hact)
      · exact absurd hact (by simp [TaskActive])
    · exact pairwise_middle inv2 (fun u hu hau hat => absurd hat (by simp [TaskActive]))
    · intro t ht hmw
      rcases mem_mid_cases ht with hin | rfl
      · exact inv3 t (mem_of_mid _ hin) hmw
      · exact absurd hmw (by simp)

/-- The invariant holds at every `installDependencies` start state. -/
theorem minv_init (rootDeps : List (String × String)) (files : Files) :
    MInv (mkInit rootDeps files) := by
  refine ⟨?_, ?_, ?_, List.nodup_nil, List.nodup_nil⟩
  · intro t ht hact
    obtain ⟨d, _, rfl⟩ := List.mem_map.mp ht
    exact absurd hact (by simp [TaskActive])
  · exact pairwise_of_inactive _ (spawned_inactive rootDeps)
  · intro t ht hmw
    obtain ⟨d, _, rfl⟩ := List.mem_map.mp ht
    exact absurd hmw (by simp)

/-- The invariant holds at every reachable state. -/
theorem minv_reachable {reg : Registry} {rootDeps : List (String × String)}
    {files : Files} {s : MState}
    (hr : ReachableM reg (mkInit rootDeps files) s) : MInv s := by
  induction hr with
  | refl => exact minv_init rootDeps files
  | tail _ hstep ih => exact minv_step ih hstep

/-- C1 amended: `installed` and `inFlight` may overlap — after a task commits
its name the name stays in `inProgress` until the task's `finally` runs (see
the counterexample).  What does hold at every reachable interleaving state:
a registered task that has not yet committed (still awaiting registry
metadata) has its name absent from `installedPackages`, and neither map ever
holds a duplicate name. -/
theorem c1_ledger_disjoint_until_commit (reg : Registry)
    (rootDeps : List (String × String)) (files : Files) (s : MState)
    (hr : ReachableM reg (mkInit rootDeps files) s) :
    (∀ t ∈ s.tasks, t.2.2 = Pc.metaWait →
      lookupStr s.installedPackages t.1 = none) ∧
    s.inFlight.Nodup ∧ (s.installedPackages.map Prod.fst).Nodup := by
  obtain ⟨_, _, inv3, inv4, inv5⟩ := minv_reachable hr
  exact ⟨inv3, inv4, inv5⟩

/-- Witness for C1 amended at a concrete reachable state. -/
theorem c1_ledger_disjoint_until_commit_witness :
    (∀ t ∈ (mkInit [("x", "1.0.0")] []).tasks, t.2.2 = Pc.metaWait →
      lookupStr (mkInit [("x", "1.0.0")] []).installedPackages t.1 = none) ∧
    (mkInit [("x", "1.0.0")] []).inFlight.Nodup ∧
    ((mkInit [("x", "1.0.0")] []).installedPackages.map Prod.fst).Nodup :=
  c1_ledger_disjoint_until_commit c1Reg [("x", "1.0.0")] [] _
    Relation.ReflTransGen.refl

/-! ## C5: the frame property outside node_modules -/

theorem listPrefixOf_append_self : ∀ (a b : List Char), listPrefixOf a (a ++ b) = true
  | [], _ => rfl
  | c :: cs, b => by simp [listPrefixOf, listPrefixOf_append_self cs b]

theorem nm_key_startsWith (n p : String) :
    strStartsWith ("node_modules/" ++ n ++ "/" ++ p) "node_modules/" = true := by
  have hdata : ("node_modules/" ++ n ++ "/" ++ p).data =
      "node_modules/".data ++ (n.data ++ ("/".data ++ p.data)) := by
    show (("node_modules/".data ++ n.data) ++ "/".data) ++ p.data = _
    simp [List.append_assoc]
  unfold strStartsWith
  rw [hdata]
  exact listPrefixOf_append_self _ _

theorem lookupStr_setKey_ne (fs : Files) (k k2 v : String) (h : k ≠ k2) :
    lookupStr (setKey fs k2 v) k = lookupStr fs k := by
  induction fs with
  | nil =>
    show lookupStr [(k2, v)] k = none
    have hne : ¬(k2 = k) := fun heq => h heq.symm
    simp [lookupStr, hne]
  | cons hd tl ih =>
    by_cases h0 : hd.1 = k2
    · show lookupStr (if hd.1 = k2 then (k2, v) :: tl else _) k = _
      rw [if_pos h0]
      show (if k2 = k then some v else lookupStr tl k) = _
      rw [if_neg (fun heq => h heq.symm)]
      show _ = (if hd.1 = k then some hd.2 else lookupStr tl k)
      have hne2 : ¬(hd.1 = k) := by
        rw [h0]
        exact fun heq => h heq.symm
      rw [if_neg hne2]
    · show lookupStr (if hd.1 = k2 then _ else hd :: setKey tl k2 v) k = _
      rw [if_neg h0]
      show (if hd.1 = k then some hd.2 else lookupStr (setKey tl k2 v) k) = _
      rw [ih]
      rfl

theorem writePkgFiles_frame (n : String) (tarFiles : List (String × String))
    (fs : Files) (k : String) (h : strStartsWith k "node_modules/" = false) :
    lookupStr (writePkgFiles n tarFiles fs) k = lookupStr fs k := by
  induction tarFiles generalizing fs with
  | nil => rfl
  | cons hd tl ih =>
    show lookupStr (writePkgFiles n tl
      (setKey fs ("node_modules/" ++ n ++ "/" ++ hd.1) hd.2)) k = _
    rw [ih]
    apply lookupStr_setKey_ne
    intro heq
    rw [heq, nm_key_startsWith] at h
    exact absurd h (by simp)

/-- No scheduler step changes a file entry outside `node_modules/`. -/
theorem step_files_frame {reg : Registry} {s s' : MState} (st : Step reg s s')
    (k : String) (h : strStartsWith k "node_modules/" = false) :
    lookupStr s'.files k = lookupStr s.files k := by
  cases st with
  | filesOk h0 h1 h2 => exact writePkgFiles_frame _ _ _ _ h
  | startInstalled h0 h1 => rfl
  | startInFlight h0 h1 h2 => rfl
  | register h0 h1 h2 => rfl
  | commit h0 h1 => rfl
  | metaFail h0 h1 => rfl
  | filesFail h0 h1 h2 => rfl
  | finishTask h0 => rfl

/-- C5 amended: during installation, file-set entries outside `node_modules/`
are never created, changed or removed — every key of the input outside
`node_modules/` keeps its original content in every reachable state, and any
key whose content differs from the input lies under `node_modules/`.  (Input
entries under an installed package's own `node_modules` prefix can be
overwritten, see the counterexample.) -/
theorem c5_result_extends_input_outside_node_modules (reg : Registry)
    (s0 s : MState) (hr : ReachableM reg s0 s) :
    (∀ k, strStartsWith k "node_modules/" = false →
      lookupStr s.files k = lookupStr s0.files k) ∧
    (∀ k, lookupStr s.files k ≠ lookupStr s0.files k →
      strStartsWith k "node_modules/" = true) := by
  have hmain : ∀ k, strStartsWith k "node_modules/" = false →
      lookupStr s.files k = lookupStr s0.files k := by
    intro k h
    induction hr with
    | refl => rfl
    | tail _ hstep ih => rw [step_files_frame hstep k h, ih]
  refine ⟨hmain, ?_⟩
  intro k hne
  cases hsw : strStartsWith k "node_modules/" with
  | true => rfl
  | false => exact absurd (hmain k hsw) hne

/-- Witness for C5 amended at a concrete input. -/
theorem c5_result_extends_input_outside_node_modules_witness :
    (∀ k, strStartsWith k "node_modules/" = false →
      lookupStr c5Init.files k = lookupStr c5Init.files k) ∧
    (∀ k, lookupStr c5Init.files k ≠ lookupStr c5Init.files k →
      strStartsWith k "node_modules/" = true) :=
  c5_result_extends_input_outside_node_modules c5Reg c5Init c5Init
    Relation.ReflTransGen.refl

/-! ## C7: the cyclic registry A ↔ B -/

def vmA : VersionMeta := ⟨[("b", "1.0.0")], some [("index.js", "A")]⟩

def vmB : VersionMeta := ⟨[("a", "1.0.0")], some [("index.js", "B")]⟩

/-- Registry in which package `a` depends on `b` and `b` depends on `a`. -/
def regAB : Registry :=
  [("a", { distTags := [], versions := [("1.0.0", vmA)] }),
   ("b", { distTags := [], versions := [("1.0.0", vmB)] })]

/-- `installDependencies` on a manifest declaring the dependency `a`. -/
def initAB : MState := mkInit [("a", "1.0.0")] []

/-- Configuration invariant for the A ↔ B run: every task is an install of
`a@1.0.0` or `b@1.0.0`, and every task past its commit point has its name
installed. -/
def InvAB (s : MState) : Prop :=
  (∀ t ∈ s.tasks, (t.1 = "a" ∨ t.1 = "b") ∧ t.2.1 = "1.0.0") ∧
  (∀ t ∈ s.tasks, (t.2.2 = Pc.filesWait ∨ t.2.2 = Pc.bodyDone) →
    (lookupStr s.installedPackages t.1).isSome = true)

theorem invAB_step {s s' : MState} (hi : InvAB s) (st : Step regAB s s') :
    InvAB s' := by
  obtain ⟨ab1, ab2⟩ := hi
  cases st with
  | @startInstalled before after n rg h h1 =>
    rw [h] at ab1 ab2
    refine ⟨?_, ?_⟩
    · intro t ht
      rcases mem_mid_cases ht with hin | rfl
      · exact ab1 t (mem_of_mid _ hin)
      · exact ab1 (n, rg, Pc.start) (mem_mid_self before after _)
    · intro t ht hpc
      rcases mem_mid_cases ht with hin | rfl
      · exact ab2 t (mem_of_mid _ hin) hpc
      · rcases hpc with h2 | h2 <;> exact absurd h2 (by simp)
  | @startInFlight before after n rg h h1 h2 =>
    rw [h] at ab1 ab2
    refine ⟨?_, ?_⟩
    · intro t ht
      rcases mem_mid_cases ht with hin | rfl
      · exact ab1 t (mem_of_mid _ hin)
      · exact ab1 (n, rg, Pc.start) (mem_mid_self before after _)
    · intro t ht hpc
      rcases mem_mid_cases ht with hin | rfl
      · exact ab2 t (mem_of_mid _ hin) hpc
      · rcases hpc with h2 | h2 <;> exact absurd h2 (by simp)
  | @register before after n rg h h1 h2 =>
    rw [h] at ab1 ab2
    refine ⟨?_, ?_⟩
    · intro t ht
      rcases mem_mid_cases ht with hin | rfl
      · exact ab1 t (mem_of_mid _ hin)
      · exact ab1 (n, rg, Pc.start) (mem_mid_self before after _)
    · intro t ht hpc
      rcases mem_mid_cases ht with hin | rfl
      · exact ab2 t (mem_of_mid _ hin) hpc
      · rcases hpc with h2 | h2 <;> exact absurd h2 (by simp)
  | @commit before after n rg v vm h h1 =>
    rw [h] at ab1 ab2
    refine ⟨?_, ?_⟩
    · intro t ht
      rcases mem_mid_cases ht with hin | rfl
      · exact ab1 t (mem_of_mid _ hin)
      · exact ab1 (n, rg, Pc.metaWait) (mem_mid_self before after _)
    · intro t ht hpc
      rcases mem_mid_cases ht with hin | rfl
      · exact lookupStr_append_isSome_mono _ _ _ (ab2 t (mem_of_mid _ hin) hpc)
      · exact lookupStr_isSome_of_append_self _ _ _
  | @metaFail before after n rg h h1 =>
    rw [h] at ab1
    have hc := ab1 (n, rg, Pc.metaWait) (mem_mid_self before after _)
    have hrg : rg = "1.0.0" := hc.2
    rcases hc.1 with hn | hn
    · have hn2 : n = "a" := hn
      rw [hn2, hrg] at h1
      exact absurd h1 (by decide)
    · have hn2 : n = "b" := hn
      rw [hn2, hrg] at h1
      exact absurd h1 (by decide)
  | @filesOk before after n rg v vm tarFiles h h1 h2 =>
    rw [h] at ab1 ab2
    have hc := ab1 (n, rg, Pc.filesWait) (mem_mid_self before after _)
    have hrg : rg = "1.0.0" := hc.2
    have hvm : vm = vmA ∨ vm = vmB := by
      rcases hc.1 with hn | hn
      · left
        have hn2 : n = "a" := hn
        rw [hn2, hrg] at h1
        have hcomp : metaLookup regAB "a" "1.0.0" = some ("1.0.0", vmA) := rfl
        rw [hcomp] at h1
        exact (congrArg Prod.snd (Option.some.inj h1)).symm
      · right
        have hn2 : n = "b" := hn
        rw [hn2, hrg] at h1
        have hcomp : metaLookup regAB "b" "1.0.0" = some ("1.0.0", vmB) := rfl
        rw [hcomp] at h1
        exact (congrArg Prod.snd (Option.some.inj h1)).symm
    refine ⟨?_, ?_⟩
    · intro t ht
      rcases List.mem_append.mp ht with hmid | hsp
      · rcases mem_mid_cases hmid with hin | rfl
        · exact ab1 t (mem_of_mid _ hin)
        · exact hc
      · obtain ⟨d, hd, rfl⟩ := List.mem_map.mp hsp
        rcases hvm with rfl | rfl
        · have hdd : d = ("b", "1.0.0") := by simpa [vmA] using hd
          rw [hdd]
          exact ⟨Or.inr rfl, rfl⟩
        · have hdd : d = ("a", "1.0.0") := by simpa [vmB] using hd
          rw [hdd]
          exact ⟨Or.inl rfl, rfl⟩
    · intro t ht hpc
      rcases List.mem_append.mp ht with hmid | hsp
      · rcases mem_mid_cases hmid with hin | rfl
        · exact ab2 t (mem_of_mid _ hin) hpc
        · exact ab2 (n, rg, Pc.filesWait) (mem_mid_self before after _) (Or.inl rfl)
      · obtain ⟨d, _, rfl⟩ := List.mem_map.mp hsp
        rcases hpc with h3 | h3 <;> exact absurd h3 (by simp)
  | @filesFail before after n rg v vm h h1 h2 =>
    rw [h] at ab1
    have hc := ab1 (n, rg, Pc.filesWait) (mem_mid_self before after _)
    have hrg : rg = "1.0.0" := hc.2
    rcases hc.1 with hn | hn
    · have hn2 : n = "a" := hn
      rw [hn2, hrg] at h1
      have hcomp : metaLookup regAB "a" "1.0.0" = some ("1.0.0", vmA) := rfl
      rw [hcomp] at h1
      have hvm : vmA = vm := congrArg Prod.snd (Option.some.inj h1)
      rw [← hvm] at h2
      exact absurd h2 (by decide)
    · have hn2 : n = "b" := hn
      rw [hn2, hrg] at h1
      have hcomp : metaLookup regAB "b" "1.0.0" = some ("1.0.0", vmB) := rfl
      rw [hcomp] at h1
      have hvm : vmB = vm := congrArg Prod.snd (Option.some.inj h1)
      rw [← hvm] at h2
      exact absurd h2 (by decide)
  | @finishTask before after n rg h =>
    rw [h] at ab1 ab2
    refine ⟨?_, ?_⟩
    · intro t ht
      rcases mem_mid_cases ht with hin | rfl
      · exact ab1 t (mem_of_mid _ hin)
      · exact ab1 (n, rg, Pc.bodyDone) (mem_mid_self before after _)
    · intro t ht hpc
      rcases mem_mid_cases ht with hin | rfl
      · exact ab2 t (mem_of_mid _ hin) hpc
      · rcases hpc with h2 | h2 <;> exact absurd h2 (by simp)

theorem invAB_init : InvAB initAB := by
  constructor
  · intro t ht
    have : t = ("a", "1.0.0", Pc.start) := by simpa [initAB, mkInit] using ht
    rw [this]
    exact ⟨Or.inl rfl, rfl⟩
  · intro t ht hpc
    have : t = ("a", "1.0.0", Pc.start) := by simpa [initAB, mkInit] using ht
    rw [this] at hpc
    rcases hpc with h2 | h2 <;> exact absurd h2 (by simp)

theorem invAB_reachable {s : MState} (hr : ReachableM regAB initAB s) :
    InvAB s := by
  induction hr with
  | refl => exact invAB_init
  | tail _ hstep ih => exact invAB_step ih hstep

/-! ## Termination measure for the A ↔ B configuration -/

def pcWeight : Pc → Nat
  | .start => 2
  | .metaWait => 5
  | .filesWait => 4
  | .bodyDone => 1
  | .finished => 0

def weightSum (l : List MTask) : Nat := (l.map (fun t => pcWeight t.2.2)).sum

/-- 1 when the name is still up for grabs (neither installed nor in flight). -/
def freePair (ips : List (String × String)) (fl : List String) (n : String) : Nat :=
  if lookupStr ips n = none ∧ n ∉ fl then 1 else 0

/-- The ranking function: each step of the A ↔ B run strictly decreases it. -/
def phiAB (s : MState) : Nat :=
  10 * (freePair s.installedPackages s.inFlight "a" +
        freePair s.installedPackages s.inFlight "b") + weightSum s.tasks

theorem weightSum_mid (l1 l2 : List MTask) (t : MTask) :
    weightSum (l1 ++ t :: l2) =
      weightSum l1 + (pcWeight t.2.2 + weightSum l2) := by
  simp [weightSum]

theorem weightSum_append (l1 l2 : List MTask) :
    weightSum (l1 ++ l2) = weightSum l1 + weightSum l2 := by
  simp [weightSum]

theorem freePair_cons_ne (ips : List (String × String)) (fl : List String)
    (n m : String) (h : m ≠ n) : freePair ips (n :: fl) m = freePair ips fl m := by
  simp [freePair, List.mem_cons, h]

theorem freePair_cons_self (ips : List (String × String)) (fl : List String)
    (n : String) : freePair ips (n :: fl) n = 0 := by
  simp [freePair]

theorem freePair_mem (ips : List (String × String)) (fl : List String)
    (n : String) (h : n ∈ fl) : freePair ips fl n = 0 := by
  simp [freePair, h]

theorem freePair_installed (ips : List (String × String)) (fl : List String)
    (n : String) (h : (lookupStr ips n).isSome = true) : freePair ips fl n = 0 := by
  unfold freePair
  rw [if_neg]
  rintro ⟨h1, _⟩
  rw [h1] at h
  simp at h

theorem freePair_append_ne (ips : List (String × String)) (fl : List String)
    (n m v : String) (h : m ≠ n) :
    freePair (ips ++ [(n, v)]) fl m = freePair ips fl m := by
  have hlk : lookupStr (ips ++ [(n, v)]) m = lookupStr ips m := by
    rw [lookupStr_append]
    cases hl : lookupStr ips m with
    | some w => rfl
    | none =>
      show lookupStr [(n, v)] m = none
      have hne : ¬(n = m) := fun heq => h heq.symm
      simp [lookupStr, hne]
  simp only [freePair, hlk]

theorem freePair_erase_ne (ips : List (String × String)) (fl : List String)
    (n m : String) (h : m ≠ n) :
    freePair ips (fl.erase n) m = freePair ips fl m := by
  simp [freePair, List.mem_erase_of_ne h]

theorem freePair_pos (ips : List (String × String)) (fl : List String)
    (n : String) (h1 : lookupStr ips n = none) (h2 : n ∉ fl) :
    freePair ips fl n = 1 := by
  simp [freePair, h1, h2]

/-- Every scheduler step of the A ↔ B run strictly decreases the measure. -/
theorem phiAB_decrease {s s' : MState} (hminv : MInv s) (hab : InvAB s)
    (st : Step regAB s s') : phiAB s' < phiAB s := by
  obtain ⟨inv1, _, _, _, _⟩ := hminv
  obtain ⟨ab1, ab2⟩ := hab
  cases st with
  | @startInstalled before after n rg h h1 =>
    have e1 : phiAB { s with tasks := before ++ (n, rg, Pc.finished) :: after } =
        10 * (freePair s.installedPackages s.inFlight "a" +
          freePair s.installedPackages s.inFlight "b") +
          weightSum (before ++ (n, rg, Pc.finished) :: after) := rfl
    have e0 : phiAB s =
        10 * (freePair s.installedPackages s.inFlight "a" +
          freePair s.installedPackages s.inFlight "b") +
          weightSum (before ++ (n, rg, Pc.start) :: after) := by
      unfold phiAB
      rw [h]
    rw [e1, e0, weightSum_mid, weightSum_mid]
    have w1 : pcWeight (n, rg, Pc.finished).2.2 = 0 := rfl
    have w2 : pcWeight (n, rg, Pc.start).2.2 = 2 := rfl
    rw [w1, w2]
    omega
  | @startInFlight before after n rg h h1 h2 =>
    have e1 : phiAB { s with tasks := before ++ (n, rg, Pc.finished) :: after } =
        10 * (freePair s.installedPackages s.inFlight "a" +
          freePair s.installedPackages s.inFlight "b") +
          weightSum (before ++ (n, rg, Pc.finished) :: after) := rfl
    have e0 : phiAB s =
        10 * (freePair s.installedPackages s.inFlight "a" +
          freePair s.installedPackages s.inFlight "b") +
          weightSum (before ++ (n, rg, Pc.start) :: after) := by
      unfold phiAB
      rw [h]
    rw [e1, e0, weightSum_mid, weightSum_mid]
    have w1 : pcWeight (n, rg, Pc.finished).2.2 = 0 := rfl
    have w2 : pcWeight (n, rg, Pc.start).2.2 = 2 := rfl
    rw [w1, w2]
    omega
  | @register before after n rg h h1 h2 =>
    rw [h] at ab1
    have hc := ab1 (n, rg, Pc.start) (mem_mid_self before after _)
    rcases hc.1 with hn | hn
    · have hn2 : n = "a" := hn
      subst hn2
      have e1 : phiAB { s with tasks := before ++ ("a", rg, Pc.metaWait) :: after, inFlight := "a" :: s.inFlight } =
          10 * (freePair s.installedPackages ("a" :: s.inFlight) "a" +
            freePair s.installedPackages ("a" :: s.inFlight) "b") +
            weightSum (before ++ ("a", rg, Pc.metaWait) :: after) := rfl
      have e0 : phiAB s =
          10 * (freePair s.installedPackages s.inFlight "a" +
            freePair s.installedPackages s.inFlight "b") +
            weightSum (before ++ ("a", rg, Pc.start) :: after) := by
        unfold phiAB
        rw [h]
      rw [e1, e0, weightSum_mid, weightSum_mid, freePair_cons_self,
        freePair_cons_ne _ _ _ _ (by decide), freePair_pos _ _ _ h1 h2]
      have w1 : pcWeight ("a", rg, Pc.metaWait).2.2 = 5 := rfl
      have w2 : pcWeight ("a", rg, Pc.start).2.2 = 2 := rfl
      rw [w1, w2]
      omega
    · have hn2 : n = "b" := hn
      subst hn2
      have e1 : phiAB { s with tasks := before ++ ("b", rg, Pc.metaWait) :: after, inFlight := "b" :: s.inFlight } =
          10 * (freePair s.installedPackages ("b" :: s.inFlight) "a" +
            freePair s.installedPackages ("b" :: s.inFlight) "b") +
            weightSum (before ++ ("b", rg, Pc.metaWait) :: after) := rfl
      have e0 : phiAB s =
          10 * (freePair s.installedPackages s.inFlight "a" +
            freePair s.installedPackages s.inFlight "b") +
            weightSum (before ++ ("b", rg, Pc.start) :: after) := by
        unfold phiAB
        rw [h]
      rw [e1, e0, weightSum_mid, weightSum_mid, freePair_cons_self,
        freePair_cons_ne _ _ _ _ (by decide), freePair_pos _ _ _ h1 h2]
      have w1 : pcWeight ("b", rg, Pc.metaWait).2.2 = 5 := rfl
      have w2 : pcWeight ("b", rg, Pc.start).2.2 = 2 := rfl
      rw [w1, w2]
      omega
  | @commit before after n rg v vm h h1 =>
    rw [h] at ab1
    rw [h] at inv1
    have hinfl : n ∈ s.inFlight :=
      inv1 (n, rg, Pc.metaWait) (mem_mid_self before after _) rfl
    have hc := ab1 (n, rg, Pc.metaWait) (mem_mid_self before after _)
    rcases hc.1 with hn | hn
    · have hn2 : n = "a" := hn
      subst hn2
      have e1 : phiAB { s with
          tasks := before ++ ("a", rg, Pc.filesWait) :: after, installedPackages := s.installedPackages ++ [("a", v)], installedList := s.installedList ++ ["a" ++ "@" ++ v] } =
          10 * (freePair (s.installedPackages ++ [("a", v)]) s.inFlight "a" +
            freePair (s.installedPackages ++ [("a", v)]) s.inFlight "b") +
            weightSum (before ++ ("a", rg, Pc.filesWait) :: after) := rfl
      have e0 : phiAB s =
          10 * (freePair s.installedPackages s.inFlight "a" +
            freePair s.installedPackages s.inFlight "b") +
            weightSum (before ++ ("a", rg, Pc.metaWait) :: after) := by
        unfold phiAB
        rw [h]
      rw [e1, e0, weightSum_mid, weightSum_mid,
        freePair_mem (s.installedPackages ++ [("a", v)]) _ _ hinfl,
        freePair_mem s.installedPackages _ _ hinfl,
        freePair_append_ne _ _ _ _ _ (by decide)]
      have w1 : pcWeight ("a", rg, Pc.filesWait).2.2 = 4 := rfl
      have w2 : pcWeight ("a", rg, Pc.metaWait).2.2 = 5 := rfl
      rw [w1, w2]
      omega
    · have hn2 : n = "b" := hn
      subst hn2
      have e1 : phiAB { s with
          tasks := before ++ ("b", rg, Pc.filesWait) :: after, installedPackages := s.installedPackages ++ [("b", v)], installedList := s.installedList ++ ["b" ++ "@" ++ v] } =
          10 * (freePair (s.installedPackages ++ [("b", v)]) s.inFlight "a" +
            freePair (s.installedPackages ++ [("b", v)]) s.inFlight "b") +
            weightSum (before ++ ("b", rg, Pc.filesWait) :: after) := rfl
      have e0 : phiAB s =
          10 * (freePair s.installedPackages s.inFlight "a" +
            freePair s.installedPackages s.inFlight "b") +
            weightSum (before ++ ("b", rg, Pc.metaWait) :: after) := by
        unfold phiAB
        rw [h]
      rw [e1, e0, weightSum_mid, weightSum_mid,
        freePair_mem (s.installedPackages ++ [("b", v)]) _ _ hinfl,
        freePair_mem s.installedPackages _ _ hinfl,
        freePair_append_ne _ _ _ _ _ (by decide)]
      have w1 : pcWeight ("b", rg, Pc.filesWait).2.2 = 4 := rfl
      have w2 : pcWeight ("b", rg, Pc.metaWait).2.2 = 5 := rfl
      rw [w1, w2]
      omega
  | @metaFail before after n rg h h1 =>
    rw [h] at ab1
    have hc := ab1 (n, rg, Pc.metaWait) (mem_mid_self before after _)
    have hrg : rg = "1.0.0" := hc.2
    rcases hc.1 with hn | hn
    · have hn2 : n = "a" := hn
      rw [hn2, hrg] at h1
      exact absurd h1 (by decide)
    · have hn2 : n = "b" := hn
      rw [hn2, hrg] at h1
      exact absurd h1 (by decide)
  | @filesOk before after n rg v vm tarFiles h h1 h2 =>
    rw [h] at ab1
    have hc := ab1 (n, rg, Pc.filesWait) (mem_mid_self before after _)
    have hrg : rg = "1.0.0" := hc.2
    subst hrg
    rcases hc.1 with hn | hn
    · have hn2 : n = "a" := hn
      subst hn2
      have hcomp : metaLookup regAB "a" "1.0.0" = some ("1.0.0", vmA) := rfl
      rw [hcomp] at h1
      have hvm : vmA = vm := congrArg Prod.snd (Option.some.inj h1)
      have e1 : phiAB { s with
          tasks := (before ++ ("a", "1.0.0", Pc.bodyDone) :: after) ++
            vm.dependencies.map (fun d => (d.1, d.2, Pc.start)), files := writePkgFiles "a" tarFiles s.files } =
          10 * (freePair s.installedPackages s.inFlight "a" +
            freePair s.installedPackages s.inFlight "b") +
            weightSum ((before ++ ("a", "1.0.0", Pc.bodyDone) :: after) ++
              vm.dependencies.map (fun d => (d.1, d.2, Pc.start))) := rfl
      have e0 : phiAB s =
          10 * (freePair s.installedPackages s.inFlight "a" +
            freePair s.installedPackages s.inFlight "b") +
            weightSum (before ++ ("a", "1.0.0", Pc.filesWait) :: after) := by
        unfold phiAB
        rw [h]
      rw [e1, e0, weightSum_append, weightSum_mid, weightSum_mid]
      have wsp : weightSum (vm.dependencies.map (fun d => (d.1, d.2, Pc.start))) = 2 := by
        rw [← hvm]
        rfl
      rw [wsp]
      have w1 : pcWeight ("a", "1.0.0", Pc.bodyDone).2.2 = 1 := rfl
      have w2 : pcWeight ("a", "1.0.0", Pc.filesWait).2.2 = 4 := rfl
      rw [w1, w2]
      omega
    · have hn2 : n = "b" := hn
      subst hn2
      have hcomp : metaLookup regAB "b" "1.0.0" = some ("1.0.0", vmB) := rfl
      rw [hcomp] at h1
      have hvm : vmB = vm := congrArg Prod.snd (Option.some.inj h1)
      have e1 : phiAB { s with
          tasks := (before ++ ("b", "1.0.0", Pc.bodyDone) :: after) ++
            vm.dependencies.map (fun d => (d.1, d.2, Pc.start)), files := writePkgFiles "b" tarFiles s.files } =
          10 * (freePair s.installedPackages s.inFlight "a" +
            freePair s.installedPackages s.inFlight "b") +
            weightSum ((before ++ ("b", "1.0.0", Pc.bodyDone) :: after) ++
              vm.dependencies.map (fun d => (d.1, d.2, Pc.start))) := rfl
      have e0 : phiAB s =
          10 * (freePair s.installedPackages s.inFlight "a" +
            freePair s.installedPackages s.inFlight "b") +
            weightSum (before ++ ("b", "1.0.0", Pc.filesWait) :: after) := by
        unfold phiAB
        rw [h]
      rw [e1, e0, weightSum_append, weightSum_mid, weightSum_mid]
      have wsp : weightSum (vm.dependencies.map (fun d => (d.1, d.2, Pc.start))) = 2 := by
        rw [← hvm]
        rfl
      rw [wsp]
      have w1 : pcWeight ("b", "1.0.0", Pc.bodyDone).2.2 = 1 := rfl
      have w2 : pcWeight ("b", "1.0.0", Pc.filesWait).2.2 = 4 := rfl
      rw [w1, w2]
      omega
  | @filesFail before after n rg v vm h h1 h2 =>
    rw [h] at ab1
    have hc := ab1 (n, rg, Pc.filesWait) (mem_mid_self before after _)
    have hrg : rg = "1.0.0" := hc.2
    rcases hc.1 with hn | hn
    · have hn2 : n = "a" := hn
      rw [hn2, hrg] at h1
      have hcomp : metaLookup regAB "a" "1.0.0" = some ("1.0.0", vmA) := rfl
      rw [hcomp] at h1
      have hvm : vmA = vm := congrArg Prod.snd (Option.some.inj h1)
      rw [← hvm] at h2
      exact absurd h2 (by decide)
    · have hn2 : n = "b" := hn
      rw [hn2, hrg] at h1
      have hcomp : metaLookup regAB "b" "1.0.0" = some ("1.0.0", vmB) := rfl
      rw [hcomp] at h1
      have hvm : vmB = vm := congrArg Prod.snd (Option.some.inj h1)
      rw [← hvm] at h2
      exact absurd h2 (by decide)
  | @finishTask before after n rg h =>
    rw [h] at ab1 ab2
    have hins : (lookupStr s.installedPackages n).isSome = true :=
      ab2 (n, rg, Pc.bodyDone) (mem_mid_self before after _) (Or.inr rfl)
    have hc := ab1 (n, rg, Pc.bodyDone) (mem_mid_self before after _)
    rcases hc.1 with hn | hn
    · have hn2 : n = "a" := hn
      subst hn2
      have e1 : phiAB { s with tasks := before ++ ("a", rg, Pc.finished) :: after, inFlight := s.inFlight.erase "a" } =
          10 * (freePair s.installedPackages (s.inFlight.erase "a") "a" +
            freePair s.installedPackages (s.inFlight.erase "a") "b") +
            weightSum (before ++ ("a", rg, Pc.finished) :: after) := rfl
      have e0 : phiAB s =
          10 * (freePair s.installedPackages s.inFlight "a" +
            freePair s.installedPackages s.inFlight "b") +
            weightSum (before ++ ("a", rg, Pc.bodyDone) :: after) := by
        unfold phiAB
        rw [h]
      rw [e1, e0, weightSum_mid, weightSum_mid,
        freePair_installed s.installedPackages (s.inFlight.erase "a") "a" hins,
        freePair_installed s.installedPackages s.inFlight "a" hins,
        freePair_erase_ne _ _ _ _ (by decide)]
      have w1 : pcWeight ("a", rg, Pc.finished).2.2 = 0 := rfl
      have w2 : pcWeight ("a", rg, Pc.bodyDone).2.2 = 1 := rfl
      rw [w1, w2]
      omega
    · have hn2 : n = "b" := hn
      subst hn2
      have e1 : phiAB { s with tasks := before ++ ("b", rg, Pc.finished) :: after, inFlight := s.inFlight.erase "b" } =
          10 * (freePair s.installedPackages (s.inFlight.erase "b") "a" +
            freePair s.installedPackages (s.inFlight.erase "b") "b") +
            weightSum (before ++ ("b", rg, Pc.finished) :: after) := rfl
      have e0 : phiAB s =
          10 * (freePair s.installedPackages s.inFlight "a" +
            freePair s.installedPackages s.inFlight "b") +
            weightSum (before ++ ("b", rg, Pc.bodyDone) :: after) := by
        unfold phiAB
        rw [h]
      rw [e1, e0, weightSum_mid, weightSum_mid,
        freePair_installed s.installedPackages (s.inFlight.erase "b") "b" hins,
        freePair_installed s.installedPackages s.inFlight "b" hins,
        freePair_erase_ne _ _ _ _ (by decide)]
      have w1 : pcWeight ("b", rg, Pc.finished).2.2 = 0 := rfl
      have w2 : pcWeight ("b", rg, Pc.bodyDone).2.2 = 1 := rfl
      rw [w1, w2]
      omega

/-- Strong normalization from the strictly decreasing measure. -/
theorem accAB_of_bound (N : Nat) : ∀ s : MState, MInv s → InvAB s →
    phiAB s ≤ N → Acc (fun x y : MState => Step regAB y x) s := by
  induction N with
  | zero =>
    intro s hm hi hb
    refine Acc.intro s (fun y hy => ?_)
    exact absurd (phiAB_decrease hm hi hy) (by omega)
  | succ n ih =>
    intro s hm hi hb
    refine Acc.intro s (fun y hy => ih y (minv_step hm hy) (invAB_step hi hy) ?_)
    have := phiAB_decrease hm hi hy
    omega

def sAB1 : MState :=
  { tasks := [("a", "1.0.0", Pc.metaWait)], installedPackages := [],
    inFlight := ["a"], installedList := [], files := [] }

def sAB2 : MState :=
  { tasks := [("a", "1.0.0", Pc.filesWait)], installedPackages := [("a", "1.0.0")],
    inFlight := ["a"], installedList := ["a@1.0.0"], files := [] }

def sAB3 : MState :=
  { tasks := [("a", "1.0.0", Pc.bodyDone), ("b", "1.0.0", Pc.start)],
    installedPackages := [("a", "1.0.0")], inFlight := ["a"],
    installedList := ["a@1.0.0"], files := [("node_modules/a/index.js", "A")] }

def sAB4 : MState :=
  { tasks := [("a", "1.0.0", Pc.bodyDone), ("b", "1.0.0", Pc.metaWait)],
    installedPackages := [("a", "1.0.0")], inFlight := ["b", "a"],
    installedList := ["a@1.0.0"], files := [("node_modules/a/index.js", "A")] }

def sAB5 : MState :=
  { tasks := [("a", "1.0.0", Pc.bodyDone), ("b", "1.0.0", Pc.filesWait)],
    installedPackages := [("a", "1.0.0"), ("b", "1.0.0")], inFlight := ["b", "a"],
    installedList := ["a@1.0.0", "b@1.0.0"],
    files := [("node_modules/a/index.js", "A")] }

def sAB6 : MState :=
  { tasks := [("a", "1.0.0", Pc.bodyDone), ("b", "1.0.0", Pc.bodyDone),
      ("a", "1.0.0", Pc.start)],
    installedPackages := [("a", "1.0.0"), ("b", "1.0.0")], inFlight := ["b", "a"],
    installedList := ["a@1.0.0", "b@1.0.0"],
    files := [("node_modules/a/index.js", "A"), ("node_modules/b/index.js", "B")] }

def sAB7 : MState :=
  { tasks := [("a", "1.0.0", Pc.bodyDone), ("b", "1.0.0", Pc.bodyDone),
      ("a", "1.0.0", Pc.finished)],
    installedPackages := [("a", "1.0.0"), ("b", "1.0.0")], inFlight := ["b", "a"],
    installedList := ["a@1.0.0", "b@1.0.0"],
    files := [("node_modules/a/index.js", "A"), ("node_modules/b/index.js", "B")] }

def sAB8 : MState :=
  { tasks := [("a", "1.0.0", Pc.finished), ("b", "1.0.0", Pc.bodyDone),
      ("a", "1.0.0", Pc.finished)],
    installedPackages := [("a", "1.0.0"), ("b", "1.0.0")], inFlight := ["b"],
    installedList := ["a@1.0.0", "b@1.0.0"],
    files := [("node_modules/a/index.js", "A"), ("node_modules/b/index.js", "B")] }

def sAB9 : MState :=
  { tasks := [("a", "1.0.0", Pc.finished), ("b", "1.0.0", Pc.finished),
      ("a", "1.0.0", Pc.finished)],
    installedPackages := [("a", "1.0.0"), ("b", "1.0.0")], inFlight := [],
    installedList := ["a@1.0.0", "b@1.0.0"],
    files := [("node_modules/a/index.js", "A"), ("node_modules/b/index.js", "B")] }

/-- The complete successful interleaving of the A ↔ B install: the re-entrant
install of the already-recorded `a` returns without recursing. -/
theorem regAB_run : ReachableM regAB initAB sAB9 := by
  have h1 : Step regAB initAB sAB1 :=
    @Step.register regAB initAB [] [] "a" "1.0.0" rfl rfl (by decide)
  have h2 : Step regAB sAB1 sAB2 :=
    @Step.commit regAB sAB1 [] [] "a" "1.0.0" "1.0.0" vmA rfl rfl
  have h3 : Step regAB sAB2 sAB3 :=
    @Step.filesOk regAB sAB2 [] [] "a" "1.0.0" "1.0.0" vmA
      [("index.js", "A")] rfl rfl rfl
  have h4 : Step regAB sAB3 sAB4 :=
    @Step.register regAB sAB3 [("a", "1.0.0", Pc.bodyDone)] [] "b" "1.0.0"
      rfl rfl (by decide)
  have h5 : Step regAB sAB4 sAB5 :=
    @Step.commit regAB sAB4 [("a", "1.0.0", Pc.bodyDone)] [] "b" "1.0.0"
      "1.0.0" vmB rfl rfl
  have h6 : Step regAB sAB5 sAB6 :=
    @Step.filesOk regAB sAB5 [("a", "1.0.0", Pc.bodyDone)] [] "b" "1.0.0"
      "1.0.0" vmB [("index.js", "B")] rfl rfl rfl
  have h7 : Step regAB sAB6 sAB7 :=
    @Step.startInstalled regAB sAB6
      [("a", "1.0.0", Pc.bodyDone), ("b", "1.0.0", Pc.bodyDone)]
      [] "a" "1.0.0" rfl (by decide)
  have h8 : Step regAB sAB7 sAB8 :=
    @Step.finishTask regAB sAB7 []
      [("b", "1.0.0", Pc.bodyDone), ("a", "1.0.0", Pc.finished)] "a" "1.0.0" rfl
  have h9 : Step regAB sAB8 sAB9 :=
    @Step.finishTask regAB sAB8 [("a", "1.0.0", Pc.finished)]
      [("a", "1.0.0", Pc.finished)] "b" "1.0.0" rfl
  exact Relation.ReflTransGen.tail
    (Relation.ReflTransGen.tail
      (Relation.ReflTransGen.tail
        (Relation.ReflTransGen.tail
          (Relation.ReflTransGen.tail
            (Relation.ReflTransGen.tail
              (Relation.ReflTransGen.tail
                (Relation.ReflTransGen.tail
                  (Relation.ReflTransGen.single h1) h2) h3) h4) h5) h6) h7) h8) h9

/-- C7: With package `a` depending on `b` and `b` depending on `a`,
`installDependencies` terminates — every interleaving from the initial state
admits no infinite run (every reachable state is accessible under the
reversed step relation) — and whenever both installs have succeeded the
installed ledger holds exactly one entry for `a` and exactly one for `b`.
A complete successful run exists; it terminates because a name is recorded
in `installedPackages` before its own transitive dependencies are installed,
so the re-entrant install of an already-recorded name returns without
recursing (the `startInstalled` step). -/
theorem c7_cycle_install_terminates :
    (∀ s : MState, ReachableM regAB initAB s →
      Acc (fun x y : MState => Step regAB y x) s) ∧
    (∀ s : MState, ReachableM regAB initAB s →
      (lookupStr s.installedPackages "a").isSome = true →
      (lookupStr s.installedPackages "b").isSome = true →
      (s.installedPackages.map Prod.fst).count "a" = 1 ∧
      (s.installedPackages.map Prod.fst).count "b" = 1) ∧
    (ReachableM regAB initAB sAB9 ∧ (∀ t ∈ sAB9.tasks, t.2.2 = Pc.finished) ∧
      sAB9.installedPackages = [("a", "1.0.0"), ("b", "1.0.0")] ∧
      sAB9.installedList = ["a@1.0.0", "b@1.0.0"]) := by
  refine ⟨?_, ?_, regAB_run, by decide, rfl, rfl⟩
  · intro s hr
    have hr2 : ReachableM regAB (mkInit [("a", "1.0.0")] []) s := hr
    exact accAB_of_bound (phiAB s) s (minv_reachable hr2) (invAB_reachable hr)
      (Nat.le_refl _)
  · intro s hr ha hb
    have hr2 : ReachableM regAB (mkInit [("a", "1.0.0")] []) s := hr
    have hnd := (minv_reachable hr2).2.2.2.2
    have hma : "a" ∈ s.installedPackages.map Prod.fst := by
      by_contra hmem
      rw [← lookupStr_eq_none_iff] at hmem
      rw [hmem] at ha
      simp at ha
    have hmb : "b" ∈ s.installedPackages.map Prod.fst := by
      by_contra hmem
      rw [← lookupStr_eq_none_iff] at hmem
      rw [hmem] at hb
      simp at hb
    exact ⟨List.count_eq_one_of_mem hnd hma, List.count_eq_one_of_mem hnd hmb⟩

/-- Witness for C7 at concrete reachable states. -/
theorem c7_cycle_install_terminates_witness :
    Acc (fun x y : MState => Step regAB y x) initAB ∧
    ((sAB9.installedPackages.map Prod.fst).count "a" = 1 ∧
      (sAB9.installedPackages.map Prod.fst).count "b" = 1) :=
  ⟨c7_cycle_install_terminates.1 initAB Relation.ReflTransGen.refl,
   c7_cycle_install_terminates.2.1 sAB9 regAB_run (by decide) (by decide)⟩
